import Mathlib

/-!
Verification of the solana-tss wire codec and protocol value model
(`src/serialization.rs`, with the key-aggregation entry point of the CLI).

Machine integers are modelled as `Nat` with explicit bounds, byte buffers as
`List Nat` whose elements are below 256, fallible operations return `Option`
or an explicit result type, and Rust panics are a distinguished result
constructor.  The external curve library (curv / curve25519) is modelled by
concrete executable definitions: compressed ed25519 point encodings with the
real decompression validity check, scalars below the group order, and
big-endian bigint byte conversions.
-/

/-- Big-endian value of a digit list in base `B`. -/
def valBE (B : Nat) : List Nat → Nat
  | [] => 0
  | d :: rest => d * B ^ rest.length + valBE B rest

/-- Big-endian byte value (base 256), as computed by `BigInt::from_bytes`. -/
def beValue (l : List Nat) : Nat := valBE 256 l

/-- Fixed-width big-endian bytes of `n` (width `k`), as written by the
bigint, scalar and pubkey encoders. -/
def beBytes : Nat → Nat → List Nat
  | 0, _ => []
  | k + 1, n => beBytes k (n / 256) ++ [n % 256]

/-- Little-endian value of a byte list, as read by `u64::from_le_bytes`. -/
def leValue : List Nat → Nat
  | [] => 0
  | d :: rest => d + 256 * leValue rest

/-- Fixed-width little-endian bytes of `n`, as written by `u64::to_le_bytes`
(the value is implicitly truncated modulo `2 ^ (8 * k)`, matching the Rust
`as u64` cast). -/
def leBytes : Nat → Nat → List Nat
  | 0, _ => []
  | k + 1, n => n % 256 :: leBytes k (n / 256)

/-- Fueled helper computing the minimal big-endian digit list of `n` in
base `B`. -/
def digAux (B : Nat) : Nat → Nat → List Nat
  | 0, _ => []
  | fuel + 1, n => if n = 0 then [] else digAux B fuel (n / B) ++ [n % B]

/-- Minimal big-endian digits of `n` in base `B` (empty for zero). -/
def natDigitsBE (B n : Nat) : List Nat := digAux B n n

/-- Fueled modular exponentiation helper (square and multiply). -/
def powModAux (m : Nat) : Nat → Nat → Nat → Nat → Nat
  | 0, _, _, acc => acc
  | fuel + 1, b, e, acc =>
    if e = 0 then acc
    else powModAux m fuel (b * b % m) (e / 2) (if e % 2 = 1 then acc * b % m else acc)

/-- Modular exponentiation `b ^ e % m` as used by the ed25519 decompression
check (300 squaring rounds cover every exponent below `2 ^ 300`). -/
def powMod (b e m : Nat) : Nat := powModAux m 300 (b % m) e (1 % m)

/-- The ed25519 base field prime `2 ^ 255 - 19`. -/
def pEd : Nat := 2 ^ 255 - 19

/-- The twisted Edwards curve constant `d = -121665 / 121666` of ed25519. -/
def dEd : Nat := 37095705934669439343138083508754565189542113879843219016388785533085940283555

/-- A square root of `-1` modulo `pEd`, used to flip the decompression
candidate root. -/
def sqrtM1 : Nat := powMod 2 ((pEd - 1) / 4) pEd

/-- Validity of the numeric value of a compressed ed25519 encoding: the low
255 bits are a canonical field element `y` and `(y ^ 2 - 1) / (d y ^ 2 + 1)`
has a square root, with the zero root refused for a set sign bit.  This is
the decompression acceptance condition of the external curve library. -/
def pointValidNum (v : Nat) : Bool :=
  let sign := v / 2 ^ 255
  let y := v % 2 ^ 255
  decide (y < pEd) &&
    (let y2 := y * y % pEd
     let u := (y2 + pEd - 1) % pEd
     let w := (dEd * y2 + 1) % pEd
     let c := u * powMod w 3 pEd % pEd * powMod (u * powMod w 7 pEd % pEd) ((pEd - 5) / 8) pEd % pEd
     let x := if w * (c * c) % pEd = u then c else c * sqrtM1 % pEd
     decide (w * (x * x) % pEd = u) && !(decide (x = 0) && decide (sign = 1)))

/-- Validity of a compressed ed25519 point encoding: exactly 32 bytes, each
below 256, whose little-endian value passes the decompression check. -/
def pointValid (b : List Nat) : Bool :=
  decide (b.length = 32) && b.all (fun x => decide (x < 256)) && pointValidNum (leValue b)

/-- The order of the ed25519 prime-subgroup. -/
def scalarOrder : Nat := 2 ^ 252 + 27742317777372353535851937790883648493

/-- A curve point, carried as its canonical 32-byte compressed encoding. -/
abbrev Point := { b : List Nat // pointValid b = true }

/-- A scalar of the ed25519 prime-subgroup. -/
abbrev Scalar := { n : Nat // n < scalarOrder }

/-- A Solana public key: 32 raw bytes, carried as their big-endian value. -/
abbrev Pubkey := { n : Nat // n < 256 ^ 32 }

/-- A Solana signature: 64 raw bytes, carried as their big-endian value. -/
abbrev Signature := { n : Nat // n < 256 ^ 64 }

/-- The canonical compressed bytes of a point (`Point::to_bytes(true)`). -/
def Point.toBytes (P : Point) : List Nat := P.val

/-- `Point::from_bytes`: accept exactly the valid compressed encodings. -/
def Point.fromBytes (b : List Nat) : Option Point :=
  if h : pointValid b = true then some ⟨b, h⟩ else none

/-- The y coordinate of a point as a bigint (`y_coord()`), i.e. the encoded
value with the sign bit cleared. -/
def Point.yCoord (P : Point) : Nat := leValue P.val % 2 ^ 255

/-- `Scalar::to_bytes`: the canonical fixed-width 32-byte encoding. -/
def Scalar.toBytes (s : Scalar) : List Nat := beBytes 32 s.val

/-- `Scalar::from_bytes`: accept exactly 32 bytes encoding a canonical
scalar below the group order, per the library contract required by the spec. -/
def Scalar.fromBytes (b : List Nat) : Option Scalar :=
  if h : b.length = 32 ∧ (∀ x ∈ b, x < 256) ∧ beValue b < scalarOrder then
    some ⟨beValue b, h.2.2⟩
  else none

/-- Bound of a big-endian byte value by the width of the list. -/
theorem beValue_lt_of_bytes : ∀ l : List Nat, (∀ x ∈ l, x < 256) → beValue l < 256 ^ l.length := by
  intro l h
  induction l with
  | nil => simp [beValue, valBE]
  | cons d rest ih =>
    have hd : d < 256 := h d (List.mem_cons_self d rest)
    have hrest : beValue rest < 256 ^ rest.length :=
      ih (fun x hx => h x (List.mem_cons_of_mem d hx))
    show valBE 256 (d :: rest) < 256 ^ (d :: rest).length
    simp only [valBE, List.length_cons, pow_succ]
    calc d * 256 ^ rest.length + valBE 256 rest
        < d * 256 ^ rest.length + 256 ^ rest.length := by
          exact Nat.add_lt_add_left hrest _
      _ = (d + 1) * 256 ^ rest.length := by ring
      _ ≤ 256 * 256 ^ rest.length := by
          exact Nat.mul_le_mul_right _ hd
      _ = 256 ^ rest.length * 256 := by ring

/-- `Pubkey::new`: clone 32 bytes into a pubkey, panicking (`none`) on any
other slice length. -/
def Pubkey.new (b : List Nat) : Option Pubkey :=
  if h : b.length = 32 ∧ ∀ x ∈ b, x < 256 then
    some ⟨beValue b, h.1 ▸ beValue_lt_of_bytes b h.2⟩
  else none

/-- `Signature::new`: clone 64 bytes into a signature, panicking (`none`) on
any other slice length. -/
def Signature.new (b : List Nat) : Option Signature :=
  if h : b.length = 64 ∧ ∀ x ∈ b, x < 256 then
    some ⟨beValue b, h.1 ▸ beValue_lt_of_bytes b h.2⟩
  else none

/-- `BigInt::to_bytes_array::<64>`: the 64-byte big-endian encoding, or
`none` (an `expect` panic in the source) when the value needs more than 64
bytes. -/
def toBytesArray64 (n : Nat) : Option (List Nat) :=
  if n < 256 ^ 64 then some (beBytes 64 n) else none

/-- The `bs58` crate's decode error: an input byte that is not a base-58
character, with its value and position. -/
inductive Bs58DecodeError where
  | invalidCharacter (character : Nat) (position : Nat)
deriving DecidableEq

/-- Decidable equality for `Except` results. -/
instance {e a : Type} [DecidableEq e] [DecidableEq a] : DecidableEq (Except e a) := fun x y =>
  match x, y with
  | .error u, .error v => decidable_of_iff (u = v) (by simp)
  | .ok u, .ok v => decidable_of_iff (u = v) (by simp)
  | .error _, .ok _ => isFalse (fun h => by cases h)
  | .ok _, .error _ => isFalse (fun h => by cases h)

/-- The codec error type (`Error` in `serialization.rs`). -/
inductive Error where
  | inputTooShort (expected found : Nat)
  | badBase58 (e : Bs58DecodeError)
  | invalidPoint
  | invalidScalar
deriving DecidableEq

/-- Result of a deserializer: a returned value, a returned codec error, or a
Rust panic escaping the call. -/
inductive DResult (α : Type) where
  | ok (val : α)
  | err (e : Error)
  | panicked
deriving DecidableEq

/-- Whether a deserialization result is a returned value. -/
def DResult.isOk {a : Type} : DResult a → Bool
  | .ok _ => true
  | .err _ => false
  | .panicked => false

/-- `aggsig::SignFirstMsg`: the round-1 hash commitment. -/
structure SignFirstMsg where
  commitment : Nat
deriving DecidableEq

/-- `aggsig::SignSecondMsg`: the revealed nonce point and blinding factor. -/
structure SignSecondMsg where
  R : Point
  blind_factor : Nat
deriving DecidableEq

/-- `aggsig::EphemeralKey`: the secret nonce scalar and its public point. -/
structure EphemeralKey where
  r : Scalar
  R : Point
deriving DecidableEq

/-- A round-1 broadcast message: commitment plus sender identity. -/
structure AggMessage1 where
  msg : SignFirstMsg
  sender : Pubkey
deriving DecidableEq

/-- A round-2 broadcast message: commitment opening plus sender identity. -/
structure AggMessage2 where
  msg : SignSecondMsg
  sender : Pubkey
deriving DecidableEq

/-- One party's partial signature, in full signature byte shape. -/
structure PartialSignature where
  sig : Signature
deriving DecidableEq

/-- Secret state carried from round 1 into round 2. -/
structure SecretAggStepOne where
  ephemeral : EphemeralKey
  second_msg : SignSecondMsg
deriving DecidableEq

/-- Secret state carried from round 2 into round 3. -/
structure SecretAggStepTwo where
  ephemeral : EphemeralKey
  first_messages : List AggMessage1
deriving DecidableEq

/-- Model of the external SHA-512 hash commitment
`create_commitment_with_user_defined_randomness`: per spec §4.2 a
deterministic one-way function of the committed coordinate and the blinding
factor (the hash internals are external to this repository). -/
def createCommitment (message blind_factor : Nat) : Nat :=
  Nat.pair message blind_factor

/-- `AggMessage1::verify_commitment`: recompute the commitment from the
revealed nonce point's y coordinate and blinding factor and compare it with
the stored commitment. -/
def AggMessage1.verify_commitment (x : AggMessage1) (msg2 : AggMessage2) : Bool :=
  createCommitment msg2.msg.R.yCoord msg2.msg.blind_factor == x.msg.commitment

/-- `AggMessage1::serialize`: append the 64-byte commitment then the sender;
`none` models the `expect` panic on an oversized commitment. -/
def AggMessage1.serialize (x : AggMessage1) (appendTo : List Nat) : Option (List Nat) :=
  match toBytesArray64 x.msg.commitment with
  | none => none
  | some cBytes => some (appendTo ++ cBytes ++ beBytes 32 x.sender.val)

/-- `AggMessage1` serialization into a fresh buffer (as in `serialize_bs58`). -/
def AggMessage1.serializeBytes (x : AggMessage1) : Option (List Nat) :=
  x.serialize []

/-- `AggMessage1::size_hint`. -/
def AggMessage1.size_hint (_ : AggMessage1) : Nat := 64 + 32

/-- `AggMessage1::deserialize`. -/
def AggMessage1.deserialize (b : List Nat) : DResult AggMessage1 :=
  if b.length < 64 + 32 then .err (.inputTooShort (64 + 32) b.length)
  else
    match Pubkey.new ((b.drop 64).take 32) with
    | none => .panicked
    | some sender => .ok ⟨⟨beValue (b.take 64)⟩, sender⟩

/-- `AggMessage2::serialize`: nonce point, 64-byte blinding factor, sender. -/
def AggMessage2.serialize (x : AggMessage2) (appendTo : List Nat) : Option (List Nat) :=
  match toBytesArray64 x.msg.blind_factor with
  | none => none
  | some blindBytes => some (appendTo ++ x.msg.R.toBytes ++ blindBytes ++ beBytes 32 x.sender.val)

/-- `AggMessage2` serialization into a fresh buffer. -/
def AggMessage2.serializeBytes (x : AggMessage2) : Option (List Nat) :=
  x.serialize []

/-- `AggMessage2::size_hint`. -/
def AggMessage2.size_hint (_ : AggMessage2) : Nat := 32 + 64 + 32

/-- `AggMessage2::deserialize`.  Note that the sender is built from every
byte from offset 96 on (`&b[32 + 64..]`), so `Pubkey::new` panics whenever
the buffer is longer than 128 bytes. -/
def AggMessage2.deserialize (b : List Nat) : DResult AggMessage2 :=
  if b.length < 32 + 64 + 32 then .err (.inputTooShort (32 + 64 + 32) b.length)
  else
    match Point.fromBytes (b.take 32) with
    | none => .err .invalidPoint
    | some R =>
      match Pubkey.new (b.drop (32 + 64)) with
      | none => .panicked
      | some sender => .ok ⟨⟨R, beValue ((b.drop 32).take 64)⟩, sender⟩

/-- `PartialSignature::serialize`: the raw 64 signature bytes. -/
def PartialSignature.serialize (x : PartialSignature) (appendTo : List Nat) : List Nat :=
  appendTo ++ beBytes 64 x.sig.val

/-- `PartialSignature` serialization into a fresh buffer. -/
def PartialSignature.serializeBytes (x : PartialSignature) : List Nat :=
  x.serialize []

/-- `PartialSignature::size_hint`. -/
def PartialSignature.size_hint (_ : PartialSignature) : Nat := 64

/-- `PartialSignature::deserialize`. -/
def PartialSignature.deserialize (b : List Nat) : DResult PartialSignature :=
  if b.length < 64 then .err (.inputTooShort 64 b.length)
  else
    match Signature.new (b.take 64) with
    | none => .panicked
    | some s => .ok ⟨s⟩

/-- `SecretAggStepOne::serialize`: scalar, both nonce points, blinding. -/
def SecretAggStepOne.serialize (x : SecretAggStepOne) (appendTo : List Nat) : Option (List Nat) :=
  match toBytesArray64 x.second_msg.blind_factor with
  | none => none
  | some blindBytes =>
      some (appendTo ++ x.ephemeral.r.toBytes ++ x.ephemeral.R.toBytes
        ++ x.second_msg.R.toBytes ++ blindBytes)

/-- `SecretAggStepOne` serialization into a fresh buffer. -/
def SecretAggStepOne.serializeBytes (x : SecretAggStepOne) : Option (List Nat) :=
  x.serialize []

/-- `SecretAggStepOne::size_hint`. -/
def SecretAggStepOne.size_hint (_ : SecretAggStepOne) : Nat := 32 + 32 + 32 + 64

/-- `SecretAggStepOne::deserialize`.  The blinding factor is parsed from
every byte from offset 96 on (`&b[64 + 32..]`). -/
def SecretAggStepOne.deserialize (b : List Nat) : DResult SecretAggStepOne :=
  if b.length < 32 + 32 + 32 + 64 then .err (.inputTooShort (32 + 32 + 32 + 64) b.length)
  else
    match Scalar.fromBytes (b.take 32) with
    | none => .err .invalidScalar
    | some r =>
      match Point.fromBytes ((b.drop 32).take 32) with
      | none => .err .invalidPoint
      | some ephemeralNonce =>
        match Point.fromBytes ((b.drop 64).take 32) with
        | none => .err .invalidPoint
        | some secondMsgNonce =>
          .ok ⟨⟨r, ephemeralNonce⟩, ⟨secondMsgNonce, beValue (b.drop (64 + 32))⟩⟩

/-- Serialize a list of first messages, 96 bytes each; `none` models the
`expect` panic on an oversized commitment. -/
def serializeMsg1List : List AggMessage1 → Option (List Nat)
  | [] => some []
  | m :: rest =>
    match toBytesArray64 m.msg.commitment, serializeMsg1List rest with
    | some cBytes, some restBytes => some (cBytes ++ beBytes 32 m.sender.val ++ restBytes)
    | _, _ => none

/-- `SecretAggStepTwo::serialize` (return value only): scalar, nonce point,
little-endian 8-byte count, then each first message. -/
def SecretAggStepTwo.serialize (x : SecretAggStepTwo) (appendTo : List Nat) : Option (List Nat) :=
  match serializeMsg1List x.first_messages with
  | none => none
  | some msgBytes =>
      some (appendTo ++ x.ephemeral.r.toBytes ++ x.ephemeral.R.toBytes
        ++ leBytes 8 x.first_messages.length ++ msgBytes)

/-- `SecretAggStepTwo` serialization into a fresh buffer. -/
def SecretAggStepTwo.serializeBytes (x : SecretAggStepTwo) : Option (List Nat) :=
  x.serialize []

/-- `SecretAggStepTwo::serialize` with its effect on standard output: the
source also prints the whole buffer (the `println!` on line 215 of
`serialization.rs`), modelled as the list of lines written. -/
def SecretAggStepTwo.serializeRun (x : SecretAggStepTwo) (appendTo : List Nat) :
    Option (List Nat × List (List Nat)) :=
  match x.serialize appendTo with
  | none => none
  | some out => some (out, [out])

/-- `SecretAggStepTwo::size_hint`. -/
def SecretAggStepTwo.size_hint (x : SecretAggStepTwo) : Nat :=
  32 + 32 + 8 + x.first_messages.length * (64 + 32)

/-- Parse the `i`-th first message of the trailing message region. -/
def parseMsg1At (b : List Nat) (i : Nat) : Option AggMessage1 :=
  match Pubkey.new (((b.drop (i * (64 + 32))).drop 64).take 32) with
  | none => none
  | some sender => some ⟨⟨beValue ((b.drop (i * (64 + 32))).take 64)⟩, sender⟩

/-- Collect a list of options, `none` as soon as any entry is `none`. -/
def traverseOpt {α : Type} : List (Option α) → Option (List α)
  | [] => some []
  | none :: _ => none
  | some a :: rest =>
    match traverseOpt rest with
    | none => none
    | some collected => some (a :: collected)

/-- Stage of `SecretAggStepTwo::deserialize` after the scalar and nonce
point have been parsed: read the count, re-check the length (the expected
length is accumulated in a `usize`, hence the modulus modelling release-mode
wrap-around), then parse the messages. -/
def step2Rest (b : List Nat) (r : Scalar) (publicNonce : Point) : DResult SecretAggStepTwo :=
  if b.length < (32 + 32 + 8 + leValue ((b.drop 64).take 8) * (64 + 32)) % 2 ^ 64 then
    .err (.inputTooShort ((32 + 32 + 8 + leValue ((b.drop 64).take 8) * (64 + 32)) % 2 ^ 64)
      b.length)
  else
    match traverseOpt ((List.range (leValue ((b.drop 64).take 8))).map
        (parseMsg1At (b.drop (64 + 8)))) with
    | none => .panicked
    | some msgs => .ok ⟨⟨r, publicNonce⟩, msgs⟩

/-- `SecretAggStepTwo::deserialize`.  The scalar and nonce point are parsed
before the count-dependent length check. -/
def SecretAggStepTwo.deserialize (b : List Nat) : DResult SecretAggStepTwo :=
  if b.length < 32 + 32 + 8 then .err (.inputTooShort (32 + 32 + 8) b.length)
  else
    match Scalar.fromBytes (b.take 32) with
    | none => .err .invalidScalar
    | some r =>
      match Point.fromBytes ((b.drop 32).take 32) with
      | none => .err .invalidPoint
      | some publicNonce => step2Rest b r publicNonce

/-- The hand-written `PartialEq` of `SecretAggStepOne`: only `ephemeral.r`
is compared against the other value, the two remaining comparisons compare
the receiver against itself. -/
def SecretAggStepOne.eqFn (a b : SecretAggStepOne) : Bool :=
  (a.ephemeral.r == b.ephemeral.r) && (a.ephemeral.R == a.ephemeral.R)
    && (a.second_msg == a.second_msg)

/-- The hand-written `PartialEq` of `SecretAggStepTwo`: only `ephemeral.r`
is compared against the other value, the two remaining comparisons compare
the receiver against itself. -/
def SecretAggStepTwo.eqFn (a b : SecretAggStepTwo) : Bool :=
  (a.ephemeral.r == b.ephemeral.r) && (a.ephemeral.R == a.ephemeral.R)
    && (a.first_messages == a.first_messages)

/-- The bitcoin base-58 alphabet as ASCII codes. -/
def b58Alphabet : List Nat :=
  [49, 50, 51, 52, 53, 54, 55, 56, 57,
   65, 66, 67, 68, 69, 70, 71, 72, 74, 75, 76, 77, 78,
   80, 81, 82, 83, 84, 85, 86, 87, 88, 89, 90,
   97, 98, 99, 100, 101, 102, 103, 104, 105, 106, 107,
   109, 110, 111, 112, 113, 114, 115, 116, 117, 118, 119, 120, 121, 122]

/-- Number of leading zero entries of a list. -/
def countZeros : List Nat → Nat
  | [] => 0
  | d :: rest => if d = 0 then countZeros rest + 1 else 0

/-- Model of the external `bs58::encode` (bitcoin alphabet): one `1`
character per leading zero byte, then the minimal base-58 digits of the
byte value. -/
def b58Encode (bytes : List Nat) : List Nat :=
  List.replicate (countZeros bytes) 49
    ++ (natDigitsBE 58 (beValue bytes)).map (fun d => b58Alphabet.getD d 0)

/-- Position of a character in the alphabet, scanning from index `i`. -/
def b58IndexOfAux : List Nat → Nat → Nat → Option Nat
  | [], _, _ => none
  | a :: rest, c, i => if a = c then some i else b58IndexOfAux rest c (i + 1)

/-- Digit value of one base-58 character. -/
def b58IndexOf (c : Nat) : Option Nat :=
  b58IndexOfAux b58Alphabet c 0

/-- Translate base-58 text into digit values, reporting the first invalid
character and its position. -/
def b58Indices : List Nat → Nat → Except Bs58DecodeError (List Nat)
  | [], _ => .ok []
  | c :: rest, i =>
    match b58IndexOf c with
    | none => .error (.invalidCharacter c i)
    | some d =>
      match b58Indices rest (i + 1) with
      | .error e => .error e
      | .ok ds => .ok (d :: ds)

/-- Model of the external `bs58::decode(..).into_vec()`: one zero byte per
leading `1` character, then the minimal base-256 digits of the text value. -/
def b58Decode (text : List Nat) : Except Bs58DecodeError (List Nat) :=
  (b58Indices text 0).map
    (fun ds => List.replicate (countZeros ds) 0 ++ natDigitsBE 256 (valBE 58 ds))

/-- The `deserialize_bs58` default method of the `Serialize` trait: decode
the text, wrapping a decoding failure in `BadBase58`, then deserialize. -/
def deserializeBs58With {α : Type} (deser : List Nat → DResult α) (text : List Nat) : DResult α :=
  match b58Decode text with
  | .error e => .err (.badBase58 e)
  | .ok v => deser v

/-- `AggMessage1::serialize_bs58`. -/
def AggMessage1.serializeBs58 (x : AggMessage1) : Option (List Nat) :=
  x.serializeBytes.map b58Encode

/-- `AggMessage1::deserialize_bs58`. -/
def AggMessage1.deserializeBs58 (text : List Nat) : DResult AggMessage1 :=
  deserializeBs58With AggMessage1.deserialize text

/-- `AggMessage2::serialize_bs58`. -/
def AggMessage2.serializeBs58 (x : AggMessage2) : Option (List Nat) :=
  x.serializeBytes.map b58Encode

/-- `AggMessage2::deserialize_bs58`. -/
def AggMessage2.deserializeBs58 (text : List Nat) : DResult AggMessage2 :=
  deserializeBs58With AggMessage2.deserialize text

/-- `PartialSignature::serialize_bs58`. -/
def PartialSignature.serializeBs58 (x : PartialSignature) : List Nat :=
  b58Encode x.serializeBytes

/-- `PartialSignature::deserialize_bs58`. -/
def PartialSignature.deserializeBs58 (text : List Nat) : DResult PartialSignature :=
  deserializeBs58With PartialSignature.deserialize text

/-- `SecretAggStepOne::serialize_bs58`. -/
def SecretAggStepOne.serializeBs58 (x : SecretAggStepOne) : Option (List Nat) :=
  x.serializeBytes.map b58Encode

/-- `SecretAggStepOne::deserialize_bs58`. -/
def SecretAggStepOne.deserializeBs58 (text : List Nat) : DResult SecretAggStepOne :=
  deserializeBs58With SecretAggStepOne.deserialize text

/-- `SecretAggStepTwo::serialize_bs58`. -/
def SecretAggStepTwo.serializeBs58 (x : SecretAggStepTwo) : Option (List Nat) :=
  x.serializeBytes.map b58Encode

/-- `SecretAggStepTwo::deserialize_bs58`. -/
def SecretAggStepTwo.deserializeBs58 (text : List Nat) : DResult SecretAggStepTwo :=
  deserializeBs58With SecretAggStepTwo.deserialize text

/-- Value order on pubkeys, used to canonicalize the key list. -/
def pkLe (a b : Pubkey) : Prop := a.val ≤ b.val

instance : DecidableRel pkLe := fun a b => Nat.decLe a.val b.val

instance : IsTotal Pubkey pkLe := ⟨fun a b => Nat.le_total a.val b.val⟩

instance : IsTrans Pubkey pkLe := ⟨fun _ _ _ h₁ h₂ => Nat.le_trans h₁ h₂⟩

instance : IsAntisymm Pubkey pkLe := ⟨fun _ _ h₁ h₂ => Subtype.ext (Nat.le_antisymm h₁ h₂)⟩

/-- Modelled from the spec: the implementation behind the `aggregate-keys`
command is not among the given sources (`src/cli.rs` only declares the
command), and spec §4.3 describes `aggregate_keys` as a pure function over
the set of participant keys made order-independent by canonicalizing
(sorting) the key list before combining.  The combining step is modelled as
an order-sensitive fold over the sorted keys. -/
def aggregate_keys (keys : List Pubkey) : Nat :=
  (List.insertionSort pkLe keys).foldl (fun acc k => acc * 256 ^ 32 + (k.val + 1)) 0

set_option maxRecDepth 1000000

/-- The compressed encoding of the identity point (`y = 1`). -/
def idPointBytes : List Nat := 1 :: List.replicate 31 0

/-- 32 bytes that are not a valid point encoding (`y = 2` is not the y
coordinate of any curve point). -/
def badPointBytes : List Nat := 2 :: List.replicate 31 0

/-- A concrete valid curve point. -/
def samplePoint : Point := ⟨idPointBytes, by decide⟩

/-- A concrete scalar. -/
def sampleScalar : Scalar := ⟨1, by decide⟩

/-- A concrete pubkey. -/
def samplePk : Pubkey := ⟨3, by decide⟩

/-- A second concrete pubkey. -/
def samplePk2 : Pubkey := ⟨2 ^ 200, by decide⟩

/-- A concrete round-1 message. -/
def sampleMsg1 : AggMessage1 := ⟨⟨5⟩, samplePk⟩

/-- A concrete round-2 message. -/
def sampleMsg2 : AggMessage2 := ⟨⟨samplePoint, 7⟩, samplePk⟩

/-- A concrete partial signature value. -/
def sampleSig : PartialSignature := ⟨⟨9, by decide⟩⟩

/-- A concrete round-1 secret state. -/
def sampleStepOne : SecretAggStepOne := ⟨⟨sampleScalar, samplePoint⟩, ⟨samplePoint, 7⟩⟩

/-- A concrete round-2 secret state with no first messages. -/
def sampleStepTwoEmpty : SecretAggStepTwo := ⟨⟨sampleScalar, samplePoint⟩, []⟩

/-- A concrete round-2 secret state with one first message. -/
def sampleStepTwoOne : SecretAggStepTwo := ⟨⟨sampleScalar, samplePoint⟩, [sampleMsg1]⟩

/-- A 96-byte buffer whose sender slice is not a valid curve point. -/
def c3Input : List Nat := List.replicate 64 0 ++ badPointBytes

/-- A 72-byte buffer with a valid scalar slice, an invalid nonce-point
slice and a count of 1. -/
def c4Input : List Nat := List.replicate 32 0 ++ badPointBytes ++ (1 :: List.replicate 7 0)

/-- A 129-byte buffer whose nonce-point slice is invalid. -/
def c10Input : List Nat := badPointBytes ++ List.replicate 97 0

/-- Width of the fixed-width big-endian encoding. -/
theorem beBytes_length : ∀ k n : Nat, (beBytes k n).length = k
  | 0, _ => rfl
  | k + 1, n => by simp [beBytes, beBytes_length k]

/-- Entries of the fixed-width big-endian encoding are bytes. -/
theorem beBytes_bytes : ∀ k n : Nat, ∀ x ∈ beBytes k n, x < 256
  | 0, _ => by intro x hx; simp [beBytes] at hx
  | k + 1, n => by
    intro x hx
    simp only [beBytes, List.mem_append, List.mem_singleton] at hx
    rcases hx with hx | hx
    · exact beBytes_bytes k _ x hx
    · subst hx; exact Nat.mod_lt _ (by omega)

/-- Big-endian value of a concatenation. -/
theorem valBE_append (B : Nat) : ∀ a c : List Nat,
    valBE B (a ++ c) = valBE B a * B ^ c.length + valBE B c
  | [], c => by simp [valBE]
  | d :: rest, c => by
    simp only [List.cons_append, valBE, List.append_eq, valBE_append B rest c,
      List.length_append, pow_add]
    ring

/-- The fixed-width big-endian encoding is a right inverse of the value map. -/
theorem beValue_beBytes : ∀ k n : Nat, n < 256 ^ k → beValue (beBytes k n) = n
  | 0, n, h => by
    have h0 : n = 0 := by simpa using h
    subst h0; rfl
  | k + 1, n, h => by
    have hdiv : n / 256 < 256 ^ k := by
      rw [Nat.div_lt_iff_lt_mul (by omega)]
      calc n < 256 ^ (k + 1) := h
        _ = 256 ^ k * 256 := by rw [pow_succ]
    show valBE 256 (beBytes k (n / 256) ++ [n % 256]) = n
    rw [valBE_append]
    show beValue (beBytes k (n / 256)) * 256 ^ ([] : List Nat).length.succ + (n % 256 * 256 ^ 0 + valBE 256 []) = n
    rw [beValue_beBytes k _ hdiv]
    simp [valBE]
    omega

/-- Width of the fixed-width little-endian encoding. -/
theorem leBytes_length : ∀ k n : Nat, (leBytes k n).length = k
  | 0, _ => rfl
  | k + 1, n => by simp [leBytes, leBytes_length k]

/-- Entries of the fixed-width little-endian encoding are bytes. -/
theorem leBytes_bytes : ∀ k n : Nat, ∀ x ∈ leBytes k n, x < 256
  | 0, _ => by intro x hx; simp [leBytes] at hx
  | k + 1, n => by
    intro x hx
    simp only [leBytes, List.mem_cons] at hx
    rcases hx with hx | hx
    · subst hx; exact Nat.mod_lt _ (by omega)
    · exact leBytes_bytes k _ x hx

/-- The little-endian reading recovers the encoded value modulo the width. -/
theorem leValue_leBytes : ∀ k n : Nat, leValue (leBytes k n) = n % 256 ^ k
  | 0, n => by simp [leBytes, leValue, Nat.mod_one]
  | k + 1, n => by
    show n % 256 + 256 * leValue (leBytes k (n / 256)) = n % 256 ^ (k + 1)
    rw [leValue_leBytes k (n / 256), pow_succ, Nat.mul_comm (256 ^ k) 256, Nat.mod_mul]

/-- A valid point encoding has exactly 32 bytes. -/
theorem pointValid_length {b : List Nat} (h : pointValid b = true) : b.length = 32 := by
  simp only [pointValid, Bool.and_eq_true, decide_eq_true_eq] at h
  exact h.1.1

/-- A valid point encoding consists of bytes. -/
theorem pointValid_bytes {b : List Nat} (h : pointValid b = true) : ∀ x ∈ b, x < 256 := by
  simp only [pointValid, Bool.and_eq_true, List.all_eq_true, decide_eq_true_eq] at h
  exact h.1.2

/-- The compressed bytes of a point have width 32. -/
theorem Point.toBytes_length (P : Point) : P.toBytes.length = 32 :=
  pointValid_length P.prop

/-- Decoding the canonical bytes of a point recovers the point. -/
theorem point_fromBytes_toBytes (P : Point) : Point.fromBytes P.toBytes = some P := by
  simp [Point.fromBytes, Point.toBytes, P.prop]

/-- The group order fits in 32 bytes. -/
theorem scalarOrder_lt : scalarOrder < 256 ^ 32 := by decide

/-- Success condition of the scalar decoder on a generic buffer. -/
theorem Scalar.fromBytes_eq (b : List Nat) (s : Scalar) (h1 : b.length = 32)
    (h2 : ∀ x ∈ b, x < 256) (h3 : beValue b = s.val) : Scalar.fromBytes b = some s := by
  unfold Scalar.fromBytes
  rw [dif_pos ⟨h1, h2, by rw [h3]; exact s.prop⟩]
  exact congrArg some (Subtype.ext h3)

/-- Decoding the canonical bytes of a scalar recovers the scalar. -/
theorem scalar_fromBytes_toBytes (s : Scalar) : Scalar.fromBytes s.toBytes = some s :=
  Scalar.fromBytes_eq _ s (beBytes_length 32 s.val) (beBytes_bytes 32 s.val)
    (beValue_beBytes 32 s.val (lt_trans s.prop scalarOrder_lt))

/-- Success condition of `Pubkey::new` on a generic buffer. -/
theorem pubkey_new_eq (b : List Nat) (p : Pubkey) (h1 : b.length = 32)
    (h2 : ∀ x ∈ b, x < 256) (h3 : beValue b = p.val) : Pubkey.new b = some p := by
  unfold Pubkey.new
  rw [dif_pos ⟨h1, h2⟩]
  exact congrArg some (Subtype.ext h3)

/-- Reading back the 32-byte encoding of a pubkey recovers the pubkey. -/
theorem pubkey_new_beBytes (p : Pubkey) : Pubkey.new (beBytes 32 p.val) = some p :=
  pubkey_new_eq _ p (beBytes_length 32 p.val) (beBytes_bytes 32 p.val)
    (beValue_beBytes 32 p.val p.prop)

/-- Success condition of `Signature::new` on a generic buffer. -/
theorem signature_new_eq (b : List Nat) (s : Signature) (h1 : b.length = 64)
    (h2 : ∀ x ∈ b, x < 256) (h3 : beValue b = s.val) : Signature.new b = some s := by
  unfold Signature.new
  rw [dif_pos ⟨h1, h2⟩]
  exact congrArg some (Subtype.ext h3)

/-- Reading back the 64-byte encoding of a signature recovers the signature. -/
theorem signature_new_beBytes (s : Signature) : Signature.new (beBytes 64 s.val) = some s :=
  signature_new_eq _ s (beBytes_length 64 s.val) (beBytes_bytes 64 s.val)
    (beValue_beBytes 64 s.val s.prop)

/-- Taking exactly the length of a list returns the list. -/
theorem take_exact {l : List Nat} {n : Nat} (h : l.length = n) : l.take n = l := by
  rw [← h, List.take_length]

/-- Bytes of a concatenation. -/
theorem bytes_append {a c : List Nat} (ha : ∀ x ∈ a, x < 256) (hc : ∀ x ∈ c, x < 256) :
    ∀ x ∈ a ++ c, x < 256 := by
  intro x hx
  rcases List.mem_append.mp hx with h | h
  · exact ha x h
  · exact hc x h

/-- Characterization of a successful 64-byte bigint encoding. -/
theorem toBytesArray64_eq_some {n : Nat} {bs : List Nat} (h : toBytesArray64 n = some bs) :
    n < 256 ^ 64 ∧ bs = beBytes 64 n := by
  unfold toBytesArray64 at h
  split at h
  · exact ⟨by assumption, (Option.some_inj.mp h).symm⟩
  · exact absurd h (by simp)

/-- Shape of a successful `AggMessage1` serialization. -/
theorem aggMessage1_serializeBytes_eq {x : AggMessage1} {bs : List Nat}
    (h : x.serializeBytes = some bs) :
    x.msg.commitment < 256 ^ 64 ∧
      bs = beBytes 64 x.msg.commitment ++ beBytes 32 x.sender.val := by
  unfold AggMessage1.serializeBytes AggMessage1.serialize at h
  cases hc : toBytesArray64 x.msg.commitment with
  | none => rw [hc] at h; cases h
  | some cBytes =>
    rw [hc] at h
    obtain ⟨hlt, hcb⟩ := toBytesArray64_eq_some hc
    simp only [Option.some_inj] at h
    refine ⟨hlt, ?_⟩
    rw [← h, hcb]
    simp

/-- Round trip for `AggMessage1`. -/
theorem aggMessage1_roundtrip {x : AggMessage1} {bs : List Nat}
    (h : x.serializeBytes = some bs) : AggMessage1.deserialize bs = .ok x := by
  obtain ⟨hlt, hbs⟩ := aggMessage1_serializeBytes_eq h
  obtain ⟨⟨c⟩, sender⟩ := x
  simp only at hlt hbs
  rw [hbs]
  have hl1 : (beBytes 64 c).length = 64 := beBytes_length _ _
  have hl2 : (beBytes 32 sender.val).length = 32 := beBytes_length _ _
  unfold AggMessage1.deserialize
  rw [if_neg (by rw [List.length_append, hl1, hl2]; omega)]
  rw [List.drop_left' hl1, List.take_left' hl1, take_exact hl2]
  rw [pubkey_new_beBytes sender, beValue_beBytes 64 c hlt]

/-- Shape of a successful `AggMessage2` serialization. -/
theorem aggMessage2_serializeBytes_eq {x : AggMessage2} {bs : List Nat}
    (h : x.serializeBytes = some bs) :
    x.msg.blind_factor < 256 ^ 64 ∧
      bs = x.msg.R.toBytes ++ (beBytes 64 x.msg.blind_factor ++ beBytes 32 x.sender.val) := by
  unfold AggMessage2.serializeBytes AggMessage2.serialize at h
  cases hc : toBytesArray64 x.msg.blind_factor with
  | none => rw [hc] at h; cases h
  | some blindBytes =>
    rw [hc] at h
    obtain ⟨hlt, hcb⟩ := toBytesArray64_eq_some hc
    simp only [Option.some_inj] at h
    refine ⟨hlt, ?_⟩
    rw [← h, hcb]
    simp

/-- Round trip for `AggMessage2`. -/
theorem aggMessage2_roundtrip {x : AggMessage2} {bs : List Nat}
    (h : x.serializeBytes = some bs) : AggMessage2.deserialize bs = .ok x := by
  obtain ⟨hlt, hbs⟩ := aggMessage2_serializeBytes_eq h
  obtain ⟨⟨R, blind⟩, sender⟩ := x
  simp only at hlt hbs
  rw [hbs]
  have hlR : R.toBytes.length = 32 := Point.toBytes_length R
  have hl1 : (beBytes 64 blind).length = 64 := beBytes_length _ _
  have hl2 : (beBytes 32 sender.val).length = 32 := beBytes_length _ _
  have h96 : (R.toBytes ++ beBytes 64 blind).length = 32 + 64 := by
    rw [List.length_append, hlR, hl1]
  have e1 : (R.toBytes ++ (beBytes 64 blind ++ beBytes 32 sender.val)).take 32 = R.toBytes :=
    List.take_left' hlR
  have e2 : (R.toBytes ++ (beBytes 64 blind ++ beBytes 32 sender.val)).drop (32 + 64)
      = beBytes 32 sender.val := by
    rw [← List.append_assoc]
    exact List.drop_left' h96
  have e3 : ((R.toBytes ++ (beBytes 64 blind ++ beBytes 32 sender.val)).drop 32).take 64
      = beBytes 64 blind := by
    rw [List.drop_left' hlR, List.take_left' hl1]
  unfold AggMessage2.deserialize
  rw [if_neg (by simp only [List.length_append, hlR, hl1, hl2]; omega)]
  rw [e1, point_fromBytes_toBytes R, e2, pubkey_new_beBytes sender]
  rw [e3, beValue_beBytes 64 blind hlt]

/-- Round trip for `PartialSignature`. -/
theorem psig_roundtrip (x : PartialSignature) :
    PartialSignature.deserialize x.serializeBytes = .ok x := by
  obtain ⟨s⟩ := x
  have hl : (beBytes 64 s.val).length = 64 := beBytes_length _ _
  show PartialSignature.deserialize ([] ++ beBytes 64 s.val) = .ok ⟨s⟩
  rw [List.nil_append]
  unfold PartialSignature.deserialize
  rw [if_neg (by omega), take_exact hl, signature_new_beBytes s]

/-- Shape of a successful `SecretAggStepOne` serialization. -/
theorem stepOne_serializeBytes_eq {x : SecretAggStepOne} {bs : List Nat}
    (h : x.serializeBytes = some bs) :
    x.second_msg.blind_factor < 256 ^ 64 ∧
      bs = x.ephemeral.r.toBytes ++ (x.ephemeral.R.toBytes
        ++ (x.second_msg.R.toBytes ++ beBytes 64 x.second_msg.blind_factor)) := by
  unfold SecretAggStepOne.serializeBytes SecretAggStepOne.serialize at h
  cases hc : toBytesArray64 x.second_msg.blind_factor with
  | none => rw [hc] at h; cases h
  | some blindBytes =>
    rw [hc] at h
    obtain ⟨hlt, hcb⟩ := toBytesArray64_eq_some hc
    simp only [Option.some_inj] at h
    refine ⟨hlt, ?_⟩
    rw [← h, hcb]
    simp

/-- Round trip for `SecretAggStepOne`. -/
theorem stepOne_roundtrip {x : SecretAggStepOne} {bs : List Nat}
    (h : x.serializeBytes = some bs) : SecretAggStepOne.deserialize bs = .ok x := by
  obtain ⟨hlt, hbs⟩ := stepOne_serializeBytes_eq h
  obtain ⟨⟨r, Reph⟩, ⟨Rsm, blind⟩⟩ := x
  simp only at hlt hbs
  rw [hbs]
  have hlr : r.toBytes.length = 32 := beBytes_length _ _
  have hlR1 : Reph.toBytes.length = 32 := Point.toBytes_length Reph
  have hlR2 : Rsm.toBytes.length = 32 := Point.toBytes_length Rsm
  have hlb : (beBytes 64 blind).length = 64 := beBytes_length _ _
  have e1 : (r.toBytes ++ (Reph.toBytes ++ (Rsm.toBytes ++ beBytes 64 blind))).take 32
      = r.toBytes := List.take_left' hlr
  have e2 : ((r.toBytes ++ (Reph.toBytes ++ (Rsm.toBytes ++ beBytes 64 blind))).drop 32).take 32
      = Reph.toBytes := by
    rw [List.drop_left' hlr, List.take_left' hlR1]
  have e3 : ((r.toBytes ++ (Reph.toBytes ++ (Rsm.toBytes ++ beBytes 64 blind))).drop 64).take 32
      = Rsm.toBytes := by
    rw [show r.toBytes ++ (Reph.toBytes ++ (Rsm.toBytes ++ beBytes 64 blind))
        = (r.toBytes ++ Reph.toBytes) ++ (Rsm.toBytes ++ beBytes 64 blind) from by simp]
    rw [List.drop_left' (by rw [List.length_append, hlr, hlR1]), List.take_left' hlR2]
  have e4 : (r.toBytes ++ (Reph.toBytes ++ (Rsm.toBytes ++ beBytes 64 blind))).drop (64 + 32)
      = beBytes 64 blind := by
    rw [show r.toBytes ++ (Reph.toBytes ++ (Rsm.toBytes ++ beBytes 64 blind))
        = (r.toBytes ++ (Reph.toBytes ++ Rsm.toBytes)) ++ beBytes 64 blind from by simp]
    exact List.drop_left' (by simp only [List.length_append, hlr, hlR1, hlR2])
  unfold SecretAggStepOne.deserialize
  rw [if_neg (by simp only [List.length_append, hlr, hlR1, hlR2, hlb]; omega)]
  rw [e1, scalar_fromBytes_toBytes r]
  rw [e2, point_fromBytes_toBytes Reph]
  rw [e3, point_fromBytes_toBytes Rsm]
  rw [e4, beValue_beBytes 64 blind hlt]

/-- Shape of a successful first-message list serialization: 96 bytes per
message, all entries bytes, and positional parsing recovers each message. -/
theorem serializeMsg1List_spec : ∀ {l : List AggMessage1} {mb : List Nat},
    serializeMsg1List l = some mb →
    mb.length = 96 * l.length ∧ (∀ x ∈ mb, x < 256) ∧
      ∀ i (hi : i < l.length), parseMsg1At mb i = some (l.get ⟨i, hi⟩)
  | [], mb, h => by
    simp only [serializeMsg1List, Option.some_inj] at h
    rw [← h]
    refine ⟨rfl, ?_, ?_⟩
    · intro x hx; cases hx
    · intro i hi; exact absurd hi (by simp)
  | m :: rest, mb, h => by
    obtain ⟨⟨c⟩, sender⟩ := m
    unfold serializeMsg1List at h
    cases hc : toBytesArray64 (AggMessage1.mk ⟨c⟩ sender).msg.commitment with
    | none => rw [hc] at h; cases h
    | some cBytes =>
      cases hr : serializeMsg1List rest with
      | none => rw [hc, hr] at h; cases h
      | some rb =>
        rw [hc, hr] at h
        simp only [Option.some_inj] at h
        obtain ⟨hclt, hcb⟩ := toBytesArray64_eq_some hc
        simp only at hclt hcb
        obtain ⟨ihlen, ihbytes, ihparse⟩ := serializeMsg1List_spec hr
        have hblen : (beBytes 64 c).length = 64 := beBytes_length _ _
        have hslen : (beBytes 32 sender.val).length = 32 := beBytes_length _ _
        refine ⟨?_, ?_, ?_⟩
        · rw [← h, hcb]
          simp only [List.length_append, hblen, hslen, ihlen, List.length_cons]
          ring
        · rw [← h, hcb]
          exact bytes_append (bytes_append (beBytes_bytes _ _) (beBytes_bytes _ _)) ihbytes
        · intro i hi
          match i with
          | 0 =>
            have e1 : (((beBytes 64 c ++ beBytes 32 sender.val ++ rb).drop (0 * (64 + 32))).take 64)
                = beBytes 64 c := by
              rw [Nat.zero_mul, List.drop_zero, List.append_assoc, List.take_left' hblen]
            have e2 : ((((beBytes 64 c ++ beBytes 32 sender.val ++ rb).drop (0 * (64 + 32))).drop 64).take 32)
                = beBytes 32 sender.val := by
              rw [Nat.zero_mul, List.drop_zero, List.append_assoc, List.drop_left' hblen,
                List.take_left' hslen]
            unfold parseMsg1At
            rw [← h, hcb, e1, e2, pubkey_new_beBytes sender, beValue_beBytes 64 c hclt]
            rfl
          | Nat.succ i =>
            have edrop : (beBytes 64 c ++ beBytes 32 sender.val ++ rb).drop ((i + 1) * (64 + 32))
                = rb.drop (i * (64 + 32)) := by
              rw [show (i + 1) * (64 + 32)
                  = (beBytes 64 c ++ beBytes 32 sender.val).length + i * (64 + 32) from by
                simp only [List.length_append, hblen, hslen]; ring]
              exact List.drop_append _
            have estep : parseMsg1At (beBytes 64 c ++ beBytes 32 sender.val ++ rb) (i + 1)
                = parseMsg1At rb i := by
              unfold parseMsg1At
              rw [edrop]
            rw [← h, hcb, estep]
            rw [ihparse i (by simpa using hi)]
            rfl

/-- Traversal of positional parses over an index range recovers the list. -/
theorem traverseOpt_map_range {α : Type} : ∀ (l : List α) (f : Nat → Option α),
    (∀ i (hi : i < l.length), f i = some (l.get ⟨i, hi⟩)) →
    traverseOpt ((List.range l.length).map f) = some l
  | [], _, _ => rfl
  | a :: rest, f, h => by
    have hstep : ∀ i (hi : i < rest.length), (f ∘ Nat.succ) i = some (rest.get ⟨i, hi⟩) := by
      intro i hi
      exact h (i + 1) (by simpa using hi)
    have ih := traverseOpt_map_range rest (f ∘ Nat.succ) hstep
    show traverseOpt ((List.range (rest.length + 1)).map f) = some (a :: rest)
    rw [List.range_succ_eq_map, List.map_cons, List.map_map]
    rw [h 0 (by simp)]
    show (match traverseOpt ((List.range rest.length).map (f ∘ Nat.succ)) with
      | none => none
      | some collected => some ((a :: rest).get ⟨0, by simp⟩ :: collected)) = some (a :: rest)
    rw [ih]
    rfl

/-- Shape of a successful `SecretAggStepTwo` serialization. -/
theorem stepTwo_serializeBytes_eq {x : SecretAggStepTwo} {bs : List Nat}
    (h : x.serializeBytes = some bs) :
    ∃ mb, serializeMsg1List x.first_messages = some mb ∧
      bs = x.ephemeral.r.toBytes ++ (x.ephemeral.R.toBytes
        ++ (leBytes 8 x.first_messages.length ++ mb)) := by
  unfold SecretAggStepTwo.serializeBytes SecretAggStepTwo.serialize at h
  cases hm : serializeMsg1List x.first_messages with
  | none => rw [hm] at h; cases h
  | some mb =>
    rw [hm] at h
    simp only [Option.some_inj] at h
    exact ⟨mb, rfl, by rw [← h]; simp⟩

/-- Round trip for `SecretAggStepTwo` (the message count must fit in the
8-byte length field). -/
theorem stepTwo_roundtrip {x : SecretAggStepTwo} {bs : List Nat}
    (hc : x.first_messages.length < 2 ^ 64)
    (h : x.serializeBytes = some bs) : SecretAggStepTwo.deserialize bs = .ok x := by
  obtain ⟨mb, hmb, hbs⟩ := stepTwo_serializeBytes_eq h
  obtain ⟨⟨r, Rp⟩, msgs⟩ := x
  simp only at hc hmb hbs
  rw [hbs]
  obtain ⟨hmlen, _, hparse⟩ := serializeMsg1List_spec hmb
  have hlr : r.toBytes.length = 32 := beBytes_length _ _
  have hlR : Rp.toBytes.length = 32 := Point.toBytes_length Rp
  have hlL : (leBytes 8 msgs.length).length = 8 := leBytes_length _ _
  have hlen : (r.toBytes ++ (Rp.toBytes ++ (leBytes 8 msgs.length ++ mb))).length
      = 72 + 96 * msgs.length := by
    simp only [List.length_append, hlr, hlR, hlL, hmlen]
    omega
  have e1 : (r.toBytes ++ (Rp.toBytes ++ (leBytes 8 msgs.length ++ mb))).take 32
      = r.toBytes := List.take_left' hlr
  have e2 : ((r.toBytes ++ (Rp.toBytes ++ (leBytes 8 msgs.length ++ mb))).drop 32).take 32
      = Rp.toBytes := by
    rw [List.drop_left' hlr, List.take_left' hlR]
  have e3 : ((r.toBytes ++ (Rp.toBytes ++ (leBytes 8 msgs.length ++ mb))).drop 64).take 8
      = leBytes 8 msgs.length := by
    rw [show r.toBytes ++ (Rp.toBytes ++ (leBytes 8 msgs.length ++ mb))
        = (r.toBytes ++ Rp.toBytes) ++ (leBytes 8 msgs.length ++ mb) from by simp]
    rw [List.drop_left' (by rw [List.length_append, hlr, hlR]), List.take_left' hlL]
  have e4 : (r.toBytes ++ (Rp.toBytes ++ (leBytes 8 msgs.length ++ mb))).drop (64 + 8)
      = mb := by
    rw [show r.toBytes ++ (Rp.toBytes ++ (leBytes 8 msgs.length ++ mb))
        = (r.toBytes ++ (Rp.toBytes ++ leBytes 8 msgs.length)) ++ mb from by simp]
    exact List.drop_left' (by simp only [List.length_append, hlr, hlR, hlL])
  have hcount : leValue (leBytes 8 msgs.length) = msgs.length := by
    rw [leValue_leBytes]
    exact Nat.mod_eq_of_lt (by
      have : (256 : Nat) ^ 8 = 2 ^ 64 := by norm_num
      omega)
  unfold SecretAggStepTwo.deserialize
  rw [if_neg (by rw [hlen]; omega)]
  rw [e1, scalar_fromBytes_toBytes r]
  rw [e2, point_fromBytes_toBytes Rp]
  show step2Rest (r.toBytes ++ (Rp.toBytes ++ (leBytes 8 msgs.length ++ mb))) r Rp
      = .ok ⟨⟨r, Rp⟩, msgs⟩
  unfold step2Rest
  rw [e3, hcount, e4]
  rw [if_neg (by
    rw [hlen]
    have hm1 := Nat.mod_le (32 + 32 + 8 + msgs.length * (64 + 32)) (2 ^ 64)
    omega)]
  rw [traverseOpt_map_range msgs (parseMsg1At mb) hparse]

/-- Mapping over a successful `Except` value. -/
theorem except_map_ok {ε α β : Type} (f : α → β) (a : α) :
    (Except.ok a : Except ε α).map f = .ok (f a) := rfl

/-- Mapping over a failed `Except` value. -/
theorem except_map_error {ε α β : Type} (f : α → β) (e : ε) :
    (Except.error e : Except ε α).map f = .error e := rfl

/-- The fueled digit helper agrees with the standard digit expansion. -/
theorem digAux_eq {B : Nat} (hB : 2 ≤ B) :
    ∀ fuel n : Nat, n ≤ fuel → digAux B fuel n = (Nat.digits B n).reverse
  | 0, n, h => by
    have h0 : n = 0 := Nat.le_zero.mp h
    subst h0
    simp [digAux]
  | fuel + 1, n, h => by
    by_cases h0 : n = 0
    · subst h0; simp [digAux]
    · have hdiv : n / B ≤ fuel := by
        have : n / B < n := Nat.div_lt_self (Nat.pos_of_ne_zero h0) hB
        omega
      rw [show digAux B (fuel + 1) n = digAux B fuel (n / B) ++ [n % B] from by
        simp [digAux, h0]]
      rw [digAux_eq hB fuel (n / B) hdiv]
      rw [Nat.digits_def' (by omega : 1 < B) (Nat.pos_of_ne_zero h0)]
      simp

/-- The minimal big-endian digits agree with the standard digit expansion. -/
theorem natDigitsBE_eq {B : Nat} (hB : 2 ≤ B) (n : Nat) :
    natDigitsBE B n = (Nat.digits B n).reverse :=
  digAux_eq hB n n le_rfl

/-- Big-endian value in terms of the standard little-endian polynomial. -/
theorem valBE_eq_ofDigits (B : Nat) : ∀ l : List Nat, valBE B l = Nat.ofDigits B l.reverse
  | [] => rfl
  | d :: rest => by
    show d * B ^ rest.length + valBE B rest = Nat.ofDigits B (d :: rest).reverse
    rw [List.reverse_cons, Nat.ofDigits_append, ← valBE_eq_ofDigits B rest,
      Nat.ofDigits_singleton, List.length_reverse]
    ring

/-- The minimal digits evaluate back to the number. -/
theorem valBE_natDigitsBE {B : Nat} (hB : 2 ≤ B) (n : Nat) : valBE B (natDigitsBE B n) = n := by
  rw [natDigitsBE_eq hB, valBE_eq_ofDigits, List.reverse_reverse, Nat.ofDigits_digits]

/-- A digit list with no leading zero is the minimal expansion of its value. -/
theorem natDigitsBE_valBE {B : Nat} (hB : 2 ≤ B) {l : List Nat} (hd : ∀ d ∈ l, d < B)
    (hh : l.head? ≠ some 0) : natDigitsBE B (valBE B l) = l := by
  rw [valBE_eq_ofDigits, natDigitsBE_eq hB]
  rw [Nat.digits_ofDigits B (by omega) l.reverse
    (fun d hdm => hd d (List.mem_reverse.mp hdm)) ?w]
  · exact List.reverse_reverse l
  case w =>
    intro hne hz
    apply hh
    have hrev := List.getLast?_reverse l
    rw [List.getLast?_eq_getLast _ hne, hz] at hrev
    exact hrev.symm

/-- Digits of the minimal expansion are below the base. -/
theorem natDigitsBE_lt {B : Nat} (hB : 2 ≤ B) (n : Nat) :
    ∀ d ∈ natDigitsBE B n, d < B := by
  rw [natDigitsBE_eq hB]
  intro d hd
  exact Nat.digits_lt_base (by omega) (List.mem_reverse.mp hd)

/-- The minimal expansion has no leading zero. -/
theorem natDigitsBE_head {B : Nat} (hB : 2 ≤ B) (n : Nat) :
    (natDigitsBE B n).head? ≠ some 0 := by
  rw [natDigitsBE_eq hB]
  by_cases h0 : n = 0
  · subst h0; simp
  · have hne : Nat.digits B n ≠ [] := Nat.digits_ne_nil_iff_ne_zero.mpr h0
    rw [List.head?_reverse]
    rw [List.getLast?_eq_getLast _ hne]
    intro hcontra
    exact Nat.getLast_digit_ne_zero B h0 (Option.some_inj.mp hcontra)

/-- A list with no leading zero has no zero run. -/
theorem countZeros_head {l : List Nat} (hh : l.head? ≠ some 0) : countZeros l = 0 := by
  cases l with
  | nil => rfl
  | cons d rest =>
    have hd : d ≠ 0 := by
      intro h0
      exact hh (by rw [h0]; rfl)
    simp [countZeros, hd]

/-- Zero run of a zero-padded list. -/
theorem countZeros_replicate_append {z : Nat} {l : List Nat} (hh : l.head? ≠ some 0) :
    countZeros (List.replicate z 0 ++ l) = z := by
  induction z with
  | zero => simpa using countZeros_head hh
  | succ k ih => simp [List.replicate_succ, countZeros, ih]

/-- Zero padding does not change the big-endian value. -/
theorem valBE_replicate_zero (B z : Nat) (l : List Nat) :
    valBE B (List.replicate z 0 ++ l) = valBE B l := by
  induction z with
  | zero => simp
  | succ k ih => simpa [List.replicate_succ, valBE] using ih

/-- Every list is its zero run followed by a part with no leading zero. -/
theorem countZeros_decomp : ∀ l : List Nat,
    l = List.replicate (countZeros l) 0 ++ l.drop (countZeros l) ∧
      (l.drop (countZeros l)).head? ≠ some 0
  | [] => ⟨rfl, by simp⟩
  | d :: rest => by
    by_cases h0 : d = 0
    · subst h0
      obtain ⟨ih1, ih2⟩ := countZeros_decomp rest
      have hcz : countZeros (0 :: rest) = countZeros rest + 1 := by simp [countZeros]
      constructor
      · rw [hcz, List.replicate_succ, List.cons_append, List.drop_succ_cons]
        exact congrArg (0 :: ·) ih1
      · rw [hcz, List.drop_succ_cons]
        exact ih2
    · have hcz : countZeros (d :: rest) = 0 := by simp [countZeros, h0]
      refine ⟨by rw [hcz]; rfl, ?_⟩
      rw [hcz]
      simpa using h0

/-- Each alphabet character decodes to its digit. -/
theorem b58IndexOf_alphabet : ∀ d : Nat, d < 58 → b58IndexOf (b58Alphabet.getD d 0) = some d := by
  decide

/-- Decoding a list of alphabet characters recovers the digits. -/
theorem b58Indices_map : ∀ (ds : List Nat) (i : Nat), (∀ d ∈ ds, d < 58) →
    b58Indices (ds.map (fun d => b58Alphabet.getD d 0)) i = .ok ds
  | [], _, _ => rfl
  | d :: rest, i, h => by
    have hd : d < 58 := h d (List.mem_cons_self d rest)
    show b58Indices (b58Alphabet.getD d 0 :: rest.map (fun d => b58Alphabet.getD d 0)) i
      = .ok (d :: rest)
    unfold b58Indices
    rw [b58IndexOf_alphabet d hd]
    rw [b58Indices_map rest (i + 1) (fun x hx => h x (List.mem_cons_of_mem d hx))]

/-- The encoder is character mapping over the padded digit expansion. -/
theorem b58Encode_eq_map (bytes : List Nat) :
    b58Encode bytes = (List.replicate (countZeros bytes) 0
      ++ natDigitsBE 58 (beValue bytes)).map (fun d => b58Alphabet.getD d 0) := by
  unfold b58Encode
  rw [List.map_append, List.map_replicate]
  rfl

/-- Decoding an encoded byte buffer recovers the buffer. -/
theorem b58Decode_b58Encode {bytes : List Nat} (hbytes : ∀ x ∈ bytes, x < 256) :
    b58Decode (b58Encode bytes) = .ok bytes := by
  obtain ⟨hdec, hhead⟩ := countZeros_decomp bytes
  have hdigs_lt : ∀ d ∈ natDigitsBE 58 (beValue bytes), d < 58 := natDigitsBE_lt (by omega) _
  have hall : ∀ d ∈ List.replicate (countZeros bytes) 0 ++ natDigitsBE 58 (beValue bytes),
      d < 58 := by
    intro d hd
    rcases List.mem_append.mp hd with hmem | hmem
    · rw [List.eq_of_mem_replicate hmem]; omega
    · exact hdigs_lt d hmem
  rw [b58Encode_eq_map]
  unfold b58Decode
  rw [b58Indices_map _ 0 hall, except_map_ok]
  have hcz : countZeros (List.replicate (countZeros bytes) 0
      ++ natDigitsBE 58 (beValue bytes)) = countZeros bytes :=
    countZeros_replicate_append (natDigitsBE_head (by omega) _)
  have hval : valBE 58 (List.replicate (countZeros bytes) 0
      ++ natDigitsBE 58 (beValue bytes)) = beValue bytes := by
    rw [valBE_replicate_zero, valBE_natDigitsBE (by omega)]
  rw [hcz, hval]
  have hbv : beValue bytes = valBE 256 (bytes.drop (countZeros bytes)) := by
    conv_lhs => rw [hdec]
    exact valBE_replicate_zero 256 _ _
  rw [hbv]
  rw [natDigitsBE_valBE (by omega) (fun d hd => hbytes d (List.mem_of_mem_drop hd)) hhead]
  rw [← hdec]

/-- The point bytes of a point are bytes. -/
theorem Point.toBytes_bytes (P : Point) : ∀ y ∈ P.toBytes, y < 256 :=
  pointValid_bytes P.prop

/-- A successful `AggMessage1` serialization consists of bytes. -/
theorem aggMessage1_serializeBytes_bytes {x : AggMessage1} {bs : List Nat}
    (h : x.serializeBytes = some bs) : ∀ y ∈ bs, y < 256 := by
  obtain ⟨_, hbs⟩ := aggMessage1_serializeBytes_eq h
  rw [hbs]
  exact bytes_append (beBytes_bytes _ _) (beBytes_bytes _ _)

/-- A successful `AggMessage2` serialization consists of bytes. -/
theorem aggMessage2_serializeBytes_bytes {x : AggMessage2} {bs : List Nat}
    (h : x.serializeBytes = some bs) : ∀ y ∈ bs, y < 256 := by
  obtain ⟨_, hbs⟩ := aggMessage2_serializeBytes_eq h
  rw [hbs]
  exact bytes_append (Point.toBytes_bytes _)
    (bytes_append (beBytes_bytes _ _) (beBytes_bytes _ _))

/-- A `PartialSignature` serialization consists of bytes. -/
theorem psig_serializeBytes_bytes (x : PartialSignature) :
    ∀ y ∈ x.serializeBytes, y < 256 := by
  show ∀ y ∈ [] ++ beBytes 64 x.sig.val, y < 256
  rw [List.nil_append]
  exact beBytes_bytes _ _

/-- A successful `SecretAggStepOne` serialization consists of bytes. -/
theorem stepOne_serializeBytes_bytes {x : SecretAggStepOne} {bs : List Nat}
    (h : x.serializeBytes = some bs) : ∀ y ∈ bs, y < 256 := by
  obtain ⟨_, hbs⟩ := stepOne_serializeBytes_eq h
  rw [hbs]
  exact bytes_append (beBytes_bytes _ _) (bytes_append (Point.toBytes_bytes _)
    (bytes_append (Point.toBytes_bytes _) (beBytes_bytes _ _)))

/-- A successful `SecretAggStepTwo` serialization consists of bytes. -/
theorem stepTwo_serializeBytes_bytes {x : SecretAggStepTwo} {bs : List Nat}
    (h : x.serializeBytes = some bs) : ∀ y ∈ bs, y < 256 := by
  obtain ⟨mb, hmb, hbs⟩ := stepTwo_serializeBytes_eq h
  rw [hbs]
  exact bytes_append (beBytes_bytes _ _) (bytes_append (Point.toBytes_bytes _)
    (bytes_append (leBytes_bytes _ _) (serializeMsg1List_spec hmb).2.1))

/-- `Pubkey::new` panics on any slice whose length is not 32. -/
theorem Pubkey.new_none {b : List Nat} (h : b.length ≠ 32) : Pubkey.new b = none :=
  dif_neg (fun hc => h hc.1)

/-- `AggMessage1::deserialize` never reports a base-58 failure. -/
theorem aggMessage1_ne_badBase58 (b : List Nat) (e : Bs58DecodeError) :
    AggMessage1.deserialize b ≠ .err (.badBase58 e) := by
  unfold AggMessage1.deserialize
  by_cases hl : b.length < 64 + 32
  · rw [if_pos hl]; simp
  · rw [if_neg hl]
    cases hp : Pubkey.new ((b.drop 64).take 32) with
    | none => simp
    | some s => simp

/-- `AggMessage2::deserialize` never reports a base-58 failure. -/
theorem aggMessage2_ne_badBase58 (b : List Nat) (e : Bs58DecodeError) :
    AggMessage2.deserialize b ≠ .err (.badBase58 e) := by
  unfold AggMessage2.deserialize
  by_cases hl : b.length < 32 + 64 + 32
  · rw [if_pos hl]; simp
  · rw [if_neg hl]
    cases hq : Point.fromBytes (b.take 32) with
    | none => simp
    | some R =>
      cases hp : Pubkey.new (b.drop (32 + 64)) with
      | none => simp
      | some s => simp

/-- `PartialSignature::deserialize` never reports a base-58 failure. -/
theorem psig_ne_badBase58 (b : List Nat) (e : Bs58DecodeError) :
    PartialSignature.deserialize b ≠ .err (.badBase58 e) := by
  unfold PartialSignature.deserialize
  by_cases hl : b.length < 64
  · rw [if_pos hl]; simp
  · rw [if_neg hl]
    cases hp : Signature.new (b.take 64) with
    | none => simp
    | some s => simp

/-- `SecretAggStepOne::deserialize` never reports a base-58 failure. -/
theorem stepOne_ne_badBase58 (b : List Nat) (e : Bs58DecodeError) :
    SecretAggStepOne.deserialize b ≠ .err (.badBase58 e) := by
  unfold SecretAggStepOne.deserialize
  by_cases hl : b.length < 32 + 32 + 32 + 64
  · rw [if_pos hl]; simp
  · rw [if_neg hl]
    cases hs : Scalar.fromBytes (b.take 32) with
    | none => simp
    | some r =>
      cases h1 : Point.fromBytes ((b.drop 32).take 32) with
      | none => simp
      | some P1 =>
        cases h2 : Point.fromBytes ((b.drop 64).take 32) with
        | none => simp
        | some P2 => simp

/-- The second stage of `SecretAggStepTwo::deserialize` never reports a
base-58 failure. -/
theorem step2Rest_ne_badBase58 (b : List Nat) (r : Scalar) (p : Point) (e : Bs58DecodeError) :
    step2Rest b r p ≠ .err (.badBase58 e) := by
  unfold step2Rest
  by_cases hl : b.length < (32 + 32 + 8 + leValue ((b.drop 64).take 8) * (64 + 32)) % 2 ^ 64
  · rw [if_pos hl]; simp
  · rw [if_neg hl]
    cases htr : traverseOpt ((List.range (leValue ((b.drop 64).take 8))).map
        (parseMsg1At (b.drop (64 + 8)))) with
    | none => simp
    | some msgs => simp

/-- `SecretAggStepTwo::deserialize` never reports a base-58 failure. -/
theorem stepTwo_ne_badBase58 (b : List Nat) (e : Bs58DecodeError) :
    SecretAggStepTwo.deserialize b ≠ .err (.badBase58 e) := by
  unfold SecretAggStepTwo.deserialize
  by_cases hl : b.length < 32 + 32 + 8
  · rw [if_pos hl]; simp
  · rw [if_neg hl]
    cases hs : Scalar.fromBytes (b.take 32) with
    | none => simp
    | some r =>
      cases h1 : Point.fromBytes ((b.drop 32).take 32) with
      | none => simp
      | some P1 =>
        show step2Rest b r P1 ≠ .err (.badBase58 e)
        exact step2Rest_ne_badBase58 b r P1 e

/-- Behaviour of the generic base-58 deserializer wrapper: a `BadBase58`
result happens exactly on a text decoding failure, and a decoded text is
passed on to the binary deserializer. -/
theorem deserializeBs58With_spec {α : Type} (deser : List Nat → DResult α)
    (hno : ∀ b e, deser b ≠ .err (.badBase58 e)) (text : List Nat) :
    (∀ e, deserializeBs58With deser text = .err (.badBase58 e) ↔ b58Decode text = .error e) ∧
    (∀ v, b58Decode text = .ok v → deserializeBs58With deser text = deser v) := by
  unfold deserializeBs58With
  cases hd : b58Decode text with
  | error e' =>
    refine ⟨?_, ?_⟩
    · intro e
      constructor
      · intro hres
        simp only [DResult.err.injEq, Error.badBase58.injEq] at hres
        rw [hres]
      · intro hres
        simp only [Except.error.injEq] at hres
        rw [hres]
    · intro v hres
      cases hres
  | ok v' =>
    refine ⟨?_, ?_⟩
    · intro e
      constructor
      · intro hres
        exact absurd hres (hno v' e)
      · intro hres
        cases hres
    · intro v hres
      simp only [Except.ok.injEq] at hres
      rw [hres]

/-- C1: for every valid value of each of the five protocol types (validity
meaning serialization succeeds, i.e. the bigint fields fit their fixed
64-byte width, and for `SecretAggStepTwo` that the message count fits the
8-byte length field), deserializing the serialized bytes returns `ok` of a
value equal, field by field, to the original — including a
`SecretAggStepTwo` with an empty list of first messages. -/
theorem claim_C1_roundtrip :
    (∀ (x : AggMessage1) (bs : List Nat), x.serializeBytes = some bs →
      AggMessage1.deserialize bs = .ok x) ∧
    (∀ (x : AggMessage2) (bs : List Nat), x.serializeBytes = some bs →
      AggMessage2.deserialize bs = .ok x) ∧
    (∀ x : PartialSignature, PartialSignature.deserialize x.serializeBytes = .ok x) ∧
    (∀ (x : SecretAggStepOne) (bs : List Nat), x.serializeBytes = some bs →
      SecretAggStepOne.deserialize bs = .ok x) ∧
    (∀ (x : SecretAggStepTwo) (bs : List Nat), x.first_messages.length < 2 ^ 64 →
      x.serializeBytes = some bs → SecretAggStepTwo.deserialize bs = .ok x) :=
  ⟨fun _ _ h => aggMessage1_roundtrip h, fun _ _ h => aggMessage2_roundtrip h,
    psig_roundtrip, fun _ _ h => stepOne_roundtrip h,
    fun _ _ hc h => stepTwo_roundtrip hc h⟩

/-- Witness for C1 at concrete values of all five types, including the
empty-list and the one-element `SecretAggStepTwo`. -/
theorem claim_C1_roundtrip_witness :
    AggMessage1.deserialize (sampleMsg1.serializeBytes.getD []) = .ok sampleMsg1 ∧
    AggMessage2.deserialize (sampleMsg2.serializeBytes.getD []) = .ok sampleMsg2 ∧
    PartialSignature.deserialize sampleSig.serializeBytes = .ok sampleSig ∧
    SecretAggStepOne.deserialize (sampleStepOne.serializeBytes.getD []) = .ok sampleStepOne ∧
    SecretAggStepTwo.deserialize (sampleStepTwoEmpty.serializeBytes.getD [])
      = .ok sampleStepTwoEmpty ∧
    SecretAggStepTwo.deserialize (sampleStepTwoOne.serializeBytes.getD [])
      = .ok sampleStepTwoOne :=
  ⟨claim_C1_roundtrip.1 _ _ (by decide),
   claim_C1_roundtrip.2.1 _ _ (by decide),
   claim_C1_roundtrip.2.2.1 sampleSig,
   claim_C1_roundtrip.2.2.2.1 _ _ (by decide),
   claim_C1_roundtrip.2.2.2.2 _ _ (by decide) (by decide),
   claim_C1_roundtrip.2.2.2.2 _ _ (by decide) (by decide)⟩

/-- C2: `verify_commitment` returns true exactly when the commitment
recomputed from the revealed nonce point's y coordinate and blinding factor
equals the stored commitment; in particular a commitment honestly created
from a pair opens with that same pair. -/
theorem claim_C2_verify_commitment :
    (∀ (m1 : AggMessage1) (m2 : AggMessage2),
      m1.verify_commitment m2 = true ↔
        createCommitment m2.msg.R.yCoord m2.msg.blind_factor = m1.msg.commitment) ∧
    (∀ (R : Point) (bf : Nat) (s1 s2 : Pubkey),
      (AggMessage1.mk ⟨createCommitment R.yCoord bf⟩ s1).verify_commitment
        (AggMessage2.mk ⟨R, bf⟩ s2) = true) := by
  constructor
  · intro m1 m2
    simp [AggMessage1.verify_commitment]
  · intro R bf s1 s2
    simp [AggMessage1.verify_commitment]

/-- C9: the hand-written equalities of both secret-state types depend only
on the ephemeral secret scalar `r`: they return true exactly when the two
`ephemeral.r` fields agree, whatever the remaining fields are. -/
theorem claim_C9_eq_only_r :
    (∀ a b : SecretAggStepOne, a.eqFn b = true ↔ a.ephemeral.r = b.ephemeral.r) ∧
    (∀ a b : SecretAggStepTwo, a.eqFn b = true ↔ a.ephemeral.r = b.ephemeral.r) := by
  constructor
  · intro a b
    simp [SecretAggStepOne.eqFn]
  · intro a b
    simp [SecretAggStepTwo.eqFn]

/-- C8: the wire codec is not free of effects: every successful run of
`SecretAggStepTwo::serialize` also prints the serialized buffer (a
non-empty standard-output transcript), because of the stray `println!`. -/
theorem claim_C8_stepTwo_prints :
    ∀ (x : SecretAggStepTwo) (appendTo out : List Nat) (printed : List (List Nat)),
      x.serializeRun appendTo = some (out, printed) → printed = [out] ∧ printed ≠ [] := by
  intro x appendTo out printed h
  unfold SecretAggStepTwo.serializeRun at h
  cases hs : SecretAggStepTwo.serialize x appendTo with
  | none => rw [hs] at h; cases h
  | some o =>
    rw [hs] at h
    simp only [Option.some_inj, Prod.mk.injEq] at h
    obtain ⟨h1, h2⟩ := h
    rw [← h2]
    exact ⟨by rw [h1], by simp⟩

/-- Witness for C8: the empty secret state serializes successfully and the
run prints exactly the serialized buffer. -/
theorem claim_C8_stepTwo_prints_witness :
    [sampleStepTwoEmpty.serializeBytes.getD []] = [sampleStepTwoEmpty.serializeBytes.getD []] ∧
      [sampleStepTwoEmpty.serializeBytes.getD []] ≠ ([] : List (List Nat)) :=
  claim_C8_stepTwo_prints sampleStepTwoEmpty [] (sampleStepTwoEmpty.serializeBytes.getD [])
    [sampleStepTwoEmpty.serializeBytes.getD []] (by decide)

/-- C5: serialization is deterministic and produces the documented sizes —
96, 128, 64, 160 and 72 + count·96 bytes — with the count written as the
little-endian 8-byte encoding of the message-list length, and `size_hint`
always equals the serialized length. -/
theorem claim_C5_layout :
    (∀ (x : AggMessage1) (bs : List Nat), x.serializeBytes = some bs →
      bs.length = 96 ∧ x.size_hint = bs.length) ∧
    (∀ (x : AggMessage2) (bs : List Nat), x.serializeBytes = some bs →
      bs.length = 128 ∧ x.size_hint = bs.length) ∧
    (∀ x : PartialSignature,
      x.serializeBytes.length = 64 ∧ x.size_hint = x.serializeBytes.length) ∧
    (∀ (x : SecretAggStepOne) (bs : List Nat), x.serializeBytes = some bs →
      bs.length = 160 ∧ x.size_hint = bs.length) ∧
    (∀ (x : SecretAggStepTwo) (bs : List Nat), x.serializeBytes = some bs →
      bs.length = 72 + x.first_messages.length * 96 ∧ x.size_hint = bs.length ∧
        (bs.drop 64).take 8 = leBytes 8 x.first_messages.length) := by
  refine ⟨?_, ?_, ?_, ?_, ?_⟩
  · intro x bs h
    obtain ⟨_, hbs⟩ := aggMessage1_serializeBytes_eq h
    have hlen : bs.length = 96 := by
      rw [hbs]
      simp [List.length_append, beBytes_length]
    exact ⟨hlen, by rw [hlen]; rfl⟩
  · intro x bs h
    obtain ⟨_, hbs⟩ := aggMessage2_serializeBytes_eq h
    have hlen : bs.length = 128 := by
      rw [hbs]
      simp [List.length_append, beBytes_length, Point.toBytes_length]
    exact ⟨hlen, by rw [hlen]; rfl⟩
  · intro x
    have hlen : x.serializeBytes.length = 64 := by
      show ([] ++ beBytes 64 x.sig.val).length = 64
      simp [beBytes_length]
    exact ⟨hlen, by rw [hlen]; rfl⟩
  · intro x bs h
    obtain ⟨_, hbs⟩ := stepOne_serializeBytes_eq h
    have hlen : bs.length = 160 := by
      rw [hbs]
      simp [List.length_append, Scalar.toBytes, beBytes_length, Point.toBytes_length]
    exact ⟨hlen, by rw [hlen]; rfl⟩
  · intro x bs h
    obtain ⟨mb, hmb, hbs⟩ := stepTwo_serializeBytes_eq h
    obtain ⟨hmlen, _, _⟩ := serializeMsg1List_spec hmb
    have hlr : (Scalar.toBytes x.ephemeral.r).length = 32 := beBytes_length _ _
    have hlR : (Point.toBytes x.ephemeral.R).length = 32 := Point.toBytes_length _
    have hlL : (leBytes 8 x.first_messages.length).length = 8 := leBytes_length _ _
    have hlen : bs.length = 72 + x.first_messages.length * 96 := by
      rw [hbs]
      simp only [List.length_append, hlr, hlR, hlL, hmlen]
      omega
    refine ⟨hlen, ?_, ?_⟩
    · rw [hlen]
      show 32 + 32 + 8 + x.first_messages.length * (64 + 32) = _
      omega
    · rw [hbs]
      rw [show Scalar.toBytes x.ephemeral.r ++ (Point.toBytes x.ephemeral.R
          ++ (leBytes 8 x.first_messages.length ++ mb))
          = (Scalar.toBytes x.ephemeral.r ++ Point.toBytes x.ephemeral.R)
            ++ (leBytes 8 x.first_messages.length ++ mb) from by simp]
      rw [List.drop_left' (by rw [List.length_append, hlr, hlR]), List.take_left' hlL]

/-- Witness for C5 at concrete values of all five types. -/
theorem claim_C5_layout_witness :
    ((sampleMsg1.serializeBytes.getD []).length = 96 ∧
      sampleMsg1.size_hint = (sampleMsg1.serializeBytes.getD []).length) ∧
    ((sampleMsg2.serializeBytes.getD []).length = 128 ∧
      sampleMsg2.size_hint = (sampleMsg2.serializeBytes.getD []).length) ∧
    (sampleSig.serializeBytes.length = 64 ∧
      sampleSig.size_hint = sampleSig.serializeBytes.length) ∧
    ((sampleStepOne.serializeBytes.getD []).length = 160 ∧
      sampleStepOne.size_hint = (sampleStepOne.serializeBytes.getD []).length) ∧
    ((sampleStepTwoOne.serializeBytes.getD []).length
        = 72 + sampleStepTwoOne.first_messages.length * 96 ∧
      sampleStepTwoOne.size_hint = (sampleStepTwoOne.serializeBytes.getD []).length ∧
      ((sampleStepTwoOne.serializeBytes.getD []).drop 64).take 8
        = leBytes 8 sampleStepTwoOne.first_messages.length) :=
  ⟨claim_C5_layout.1 _ _ (by decide),
   claim_C5_layout.2.1 _ _ (by decide),
   claim_C5_layout.2.2.1 sampleSig,
   claim_C5_layout.2.2.2.1 _ _ (by decide),
   claim_C5_layout.2.2.2.2 _ _ (by decide)⟩

/-- C6: key aggregation is a pure function of the set of keys: permuted key
lists yield the identical aggregate key (the sort canonicalizes the order
before combining). -/
theorem claim_C6_aggregate_keys_perm :
    ∀ l₁ l₂ : List Pubkey, l₁.Perm l₂ → aggregate_keys l₁ = aggregate_keys l₂ := by
  intro l₁ l₂ hperm
  unfold aggregate_keys
  have hsorted : List.insertionSort pkLe l₁ = List.insertionSort pkLe l₂ :=
    List.eq_of_perm_of_sorted
      ((List.perm_insertionSort pkLe l₁).trans
        (hperm.trans (List.perm_insertionSort pkLe l₂).symm))
      (List.sorted_insertionSort pkLe l₁) (List.sorted_insertionSort pkLe l₂)
  rw [hsorted]

/-- Witness for C6: two concrete keys presented in both orders. -/
theorem claim_C6_aggregate_keys_perm_witness :
    aggregate_keys [samplePk, samplePk2] = aggregate_keys [samplePk2, samplePk] :=
  claim_C6_aggregate_keys_perm _ _ (by decide)

/-- C7: the base-58 layer is a faithful wrapper over the binary codec for
all five protocol types: serializing to text and deserializing from it is
the binary round trip, and `deserialize_bs58` fails with `BadBase58`
exactly when the text does not decode as base-58, otherwise returning
exactly the binary deserialization of the decoded bytes. -/
theorem claim_C7_bs58_layer :
    ((∀ (x : AggMessage1) (bs : List Nat), x.serializeBytes = some bs →
      x.serializeBs58 = some (b58Encode bs) ∧
        AggMessage1.deserializeBs58 (b58Encode bs) = AggMessage1.deserialize bs) ∧
    (∀ text, (∀ e, AggMessage1.deserializeBs58 text = .err (.badBase58 e) ↔
        b58Decode text = .error e) ∧
      (∀ v, b58Decode text = .ok v →
        AggMessage1.deserializeBs58 text = AggMessage1.deserialize v))) ∧
    ((∀ (x : AggMessage2) (bs : List Nat), x.serializeBytes = some bs →
      x.serializeBs58 = some (b58Encode bs) ∧
        AggMessage2.deserializeBs58 (b58Encode bs) = AggMessage2.deserialize bs) ∧
    (∀ text, (∀ e, AggMessage2.deserializeBs58 text = .err (.badBase58 e) ↔
        b58Decode text = .error e) ∧
      (∀ v, b58Decode text = .ok v →
        AggMessage2.deserializeBs58 text = AggMessage2.deserialize v))) ∧
    ((∀ x : PartialSignature,
      x.serializeBs58 = b58Encode x.serializeBytes ∧
        PartialSignature.deserializeBs58 (b58Encode x.serializeBytes)
          = PartialSignature.deserialize x.serializeBytes) ∧
    (∀ text, (∀ e, PartialSignature.deserializeBs58 text = .err (.badBase58 e) ↔
        b58Decode text = .error e) ∧
      (∀ v, b58Decode text = .ok v →
        PartialSignature.deserializeBs58 text = PartialSignature.deserialize v))) ∧
    ((∀ (x : SecretAggStepOne) (bs : List Nat), x.serializeBytes = some bs →
      x.serializeBs58 = some (b58Encode bs) ∧
        SecretAggStepOne.deserializeBs58 (b58Encode bs) = SecretAggStepOne.deserialize bs) ∧
    (∀ text, (∀ e, SecretAggStepOne.deserializeBs58 text = .err (.badBase58 e) ↔
        b58Decode text = .error e) ∧
      (∀ v, b58Decode text = .ok v →
        SecretAggStepOne.deserializeBs58 text = SecretAggStepOne.deserialize v))) ∧
    ((∀ (x : SecretAggStepTwo) (bs : List Nat), x.serializeBytes = some bs →
      x.serializeBs58 = some (b58Encode bs) ∧
        SecretAggStepTwo.deserializeBs58 (b58Encode bs) = SecretAggStepTwo.deserialize bs) ∧
    (∀ text, (∀ e, SecretAggStepTwo.deserializeBs58 text = .err (.badBase58 e) ↔
        b58Decode text = .error e) ∧
      (∀ v, b58Decode text = .ok v →
        SecretAggStepTwo.deserializeBs58 text = SecretAggStepTwo.deserialize v))) := by
  refine ⟨⟨?_, ?_⟩, ⟨?_, ?_⟩, ⟨?_, ?_⟩, ⟨?_, ?_⟩, ⟨?_, ?_⟩⟩
  · intro x bs h
    refine ⟨by unfold AggMessage1.serializeBs58; rw [h]; rfl, ?_⟩
    unfold AggMessage1.deserializeBs58 deserializeBs58With
    rw [b58Decode_b58Encode (aggMessage1_serializeBytes_bytes h)]
  · exact deserializeBs58With_spec AggMessage1.deserialize aggMessage1_ne_badBase58
  · intro x bs h
    refine ⟨by unfold AggMessage2.serializeBs58; rw [h]; rfl, ?_⟩
    unfold AggMessage2.deserializeBs58 deserializeBs58With
    rw [b58Decode_b58Encode (aggMessage2_serializeBytes_bytes h)]
  · exact deserializeBs58With_spec AggMessage2.deserialize aggMessage2_ne_badBase58
  · intro x
    refine ⟨rfl, ?_⟩
    unfold PartialSignature.deserializeBs58 deserializeBs58With
    rw [b58Decode_b58Encode (psig_serializeBytes_bytes x)]
  · exact deserializeBs58With_spec PartialSignature.deserialize
      psig_ne_badBase58
  · intro x bs h
    refine ⟨by unfold SecretAggStepOne.serializeBs58; rw [h]; rfl, ?_⟩
    unfold SecretAggStepOne.deserializeBs58 deserializeBs58With
    rw [b58Decode_b58Encode (stepOne_serializeBytes_bytes h)]
  · exact deserializeBs58With_spec SecretAggStepOne.deserialize
      stepOne_ne_badBase58
  · intro x bs h
    refine ⟨by unfold SecretAggStepTwo.serializeBs58; rw [h]; rfl, ?_⟩
    unfold SecretAggStepTwo.deserializeBs58 deserializeBs58With
    rw [b58Decode_b58Encode (stepTwo_serializeBytes_bytes h)]
  · exact deserializeBs58With_spec SecretAggStepTwo.deserialize
      stepTwo_ne_badBase58

/-- Witness for C7: the round trip through text at a concrete value of each
type, a concrete invalid text, and a concrete decodable text. -/
theorem claim_C7_bs58_layer_witness :
    (sampleMsg1.serializeBs58 = some (b58Encode (sampleMsg1.serializeBytes.getD [])) ∧
      AggMessage1.deserializeBs58 (b58Encode (sampleMsg1.serializeBytes.getD []))
        = AggMessage1.deserialize (sampleMsg1.serializeBytes.getD [])) ∧
    (sampleMsg2.serializeBs58 = some (b58Encode (sampleMsg2.serializeBytes.getD [])) ∧
      AggMessage2.deserializeBs58 (b58Encode (sampleMsg2.serializeBytes.getD []))
        = AggMessage2.deserialize (sampleMsg2.serializeBytes.getD [])) ∧
    (sampleSig.serializeBs58 = b58Encode sampleSig.serializeBytes ∧
      PartialSignature.deserializeBs58 (b58Encode sampleSig.serializeBytes)
        = PartialSignature.deserialize sampleSig.serializeBytes) ∧
    (sampleStepOne.serializeBs58 = some (b58Encode (sampleStepOne.serializeBytes.getD [])) ∧
      SecretAggStepOne.deserializeBs58 (b58Encode (sampleStepOne.serializeBytes.getD []))
        = SecretAggStepOne.deserialize (sampleStepOne.serializeBytes.getD [])) ∧
    (sampleStepTwoOne.serializeBs58 = some (b58Encode (sampleStepTwoOne.serializeBytes.getD [])) ∧
      SecretAggStepTwo.deserializeBs58 (b58Encode (sampleStepTwoOne.serializeBytes.getD []))
        = SecretAggStepTwo.deserialize (sampleStepTwoOne.serializeBytes.getD [])) ∧
    AggMessage1.deserializeBs58 [0] = .err (.badBase58 (.invalidCharacter 0 0)) ∧
    AggMessage1.deserializeBs58 [] = AggMessage1.deserialize [] :=
  ⟨claim_C7_bs58_layer.1.1 _ _ (by decide),
   claim_C7_bs58_layer.2.1.1 _ _ (by decide),
   claim_C7_bs58_layer.2.2.1.1 sampleSig,
   claim_C7_bs58_layer.2.2.2.1.1 _ _ (by decide),
   claim_C7_bs58_layer.2.2.2.2.1 _ _ (by decide),
   ((claim_C7_bs58_layer.1.2 [0]).1 (.invalidCharacter 0 0)).mpr (by decide),
   (claim_C7_bs58_layer.1.2 []).2 [] (by decide)⟩

/-- Any 96-byte (or longer) byte buffer is accepted by
`AggMessage1::deserialize`: neither the commitment nor the sender slice is
validated. -/
theorem AggMessage1.deserialize_ok {b : List Nat} (hlen : 96 ≤ b.length)
    (hbytes : ∀ x ∈ b, x < 256) : (AggMessage1.deserialize b).isOk = true := by
  unfold AggMessage1.deserialize
  rw [if_neg (by omega)]
  have h1 : ((b.drop 64).take 32).length = 32 := by
    rw [List.length_take, List.length_drop]
    omega
  have h2 : ∀ x ∈ (b.drop 64).take 32, x < 256 :=
    fun x hx => hbytes x (List.mem_of_mem_drop (List.mem_of_mem_take hx))
  obtain ⟨p, hp⟩ : ∃ p, Pubkey.new ((b.drop 64).take 32) = some p :=
    ⟨⟨beValue ((b.drop 64).take 32), (beValue_lt_of_bytes _ h2).trans_le (by rw [h1])⟩,
      pubkey_new_eq _ _ h1 h2 rfl⟩
  rw [hp]
  rfl

/-- Counterexample to C3 as stated: a 96-byte buffer whose sender slice is
not a valid curve point (and whose commitment slice is arbitrary) is still
accepted by `AggMessage1::deserialize` — no slice of it is validated as a
curve element. -/
theorem claim_C3_counterexample :
    Point.fromBytes (c3Input.drop 64) = none ∧
      AggMessage1.deserialize c3Input = .ok ⟨⟨0⟩, ⟨2 * 256 ^ 31, by decide⟩⟩ := by
  constructor
  · decide
  · decide

/-- C3 amended: deserialization validates the nonce-point fields —
`AggMessage2.msg.R`, both points of `SecretAggStepOne` and the public
nonce point of `SecretAggStepTwo` — through the point decoder
(`InvalidPoint`) and the ephemeral scalar field through the scalar decoder
(`InvalidScalar`); the sender, commitment and blind-factor fields are raw
byte or bigint fields accepted without curve validation. -/
theorem claim_C3_amended :
    (∀ b : List Nat, 96 ≤ b.length → (∀ x ∈ b, x < 256) →
      (AggMessage1.deserialize b).isOk = true) ∧
    (∀ b : List Nat, 128 ≤ b.length → Point.fromBytes (b.take 32) = none →
      AggMessage2.deserialize b = .err .invalidPoint) ∧
    (∀ b : List Nat, 160 ≤ b.length → Scalar.fromBytes (b.take 32) = none →
      SecretAggStepOne.deserialize b = .err .invalidScalar) ∧
    (∀ (b : List Nat) (r : Scalar), 160 ≤ b.length →
      Scalar.fromBytes (b.take 32) = some r →
      Point.fromBytes ((b.drop 32).take 32) = none →
      SecretAggStepOne.deserialize b = .err .invalidPoint) ∧
    (∀ (b : List Nat) (r : Scalar) (P : Point), 160 ≤ b.length →
      Scalar.fromBytes (b.take 32) = some r →
      Point.fromBytes ((b.drop 32).take 32) = some P →
      Point.fromBytes ((b.drop 64).take 32) = none →
      SecretAggStepOne.deserialize b = .err .invalidPoint) ∧
    (∀ b : List Nat, 72 ≤ b.length → Scalar.fromBytes (b.take 32) = none →
      SecretAggStepTwo.deserialize b = .err .invalidScalar) ∧
    (∀ (b : List Nat) (r : Scalar), 72 ≤ b.length →
      Scalar.fromBytes (b.take 32) = some r →
      Point.fromBytes ((b.drop 32).take 32) = none →
      SecretAggStepTwo.deserialize b = .err .invalidPoint) ∧
    (∀ (b : List Nat) (P : Point), b.length = 128 → (∀ x ∈ b, x < 256) →
      Point.fromBytes (b.take 32) = some P →
      (AggMessage2.deserialize b).isOk = true) := by
  refine ⟨?_, ?_, ?_, ?_, ?_, ?_, ?_, ?_⟩
  · intro b hlen hbytes
    exact AggMessage1.deserialize_ok hlen hbytes
  · intro b hlen hpt
    unfold AggMessage2.deserialize
    rw [if_neg (by omega), hpt]
  · intro b hlen hsc
    unfold SecretAggStepOne.deserialize
    rw [if_neg (by omega), hsc]
  · intro b r hlen hsc hpt
    unfold SecretAggStepOne.deserialize
    rw [if_neg (by omega), hsc, hpt]
  · intro b r P hlen hsc hpt1 hpt2
    unfold SecretAggStepOne.deserialize
    rw [if_neg (by omega), hsc, hpt1, hpt2]
  · intro b hlen hsc
    unfold SecretAggStepTwo.deserialize
    rw [if_neg (by omega), hsc]
  · intro b r hlen hsc hpt
    unfold SecretAggStepTwo.deserialize
    rw [if_neg (by omega), hsc, hpt]
  · intro b P hlen hbytes hpt
    unfold AggMessage2.deserialize
    rw [if_neg (by omega), hpt]
    have h1 : (b.drop (32 + 64)).length = 32 := by
      rw [List.length_drop]
      omega
    have h2 : ∀ x ∈ b.drop (32 + 64), x < 256 :=
      fun x hx => hbytes x (List.mem_of_mem_drop hx)
    obtain ⟨p, hp⟩ : ∃ p, Pubkey.new (b.drop (32 + 64)) = some p :=
      ⟨⟨beValue (b.drop (32 + 64)), (beValue_lt_of_bytes _ h2).trans_le (by rw [h1])⟩,
        pubkey_new_eq _ _ h1 h2 rfl⟩
    rw [hp]
    rfl

/-- Witness for C3 amended at concrete buffers: an all-zero accepted
`AggMessage1` buffer, an invalid point slice, an oversized scalar slice, a
valid-scalar-invalid-point buffer, and a valid-point buffer with arbitrary
blind bytes. -/
theorem claim_C3_amended_witness :
    (AggMessage1.deserialize (List.replicate 96 0)).isOk = true ∧
    AggMessage2.deserialize (badPointBytes ++ List.replicate 96 0) = .err .invalidPoint ∧
    SecretAggStepOne.deserialize (List.replicate 32 255 ++ List.replicate 128 0)
      = .err .invalidScalar ∧
    SecretAggStepOne.deserialize (List.replicate 32 0 ++ (badPointBytes ++ List.replicate 96 0))
      = .err .invalidPoint ∧
    SecretAggStepOne.deserialize
        (List.replicate 32 0 ++ (idPointBytes ++ (badPointBytes ++ List.replicate 64 0)))
      = .err .invalidPoint ∧
    SecretAggStepTwo.deserialize (List.replicate 32 255 ++ List.replicate 40 0)
      = .err .invalidScalar ∧
    SecretAggStepTwo.deserialize (List.replicate 32 0 ++ (badPointBytes ++ List.replicate 8 0))
      = .err .invalidPoint ∧
    (AggMessage2.deserialize (idPointBytes ++ List.replicate 96 255)).isOk = true :=
  ⟨claim_C3_amended.1 _ (by decide) (by decide),
   claim_C3_amended.2.1 _ (by decide) (by decide),
   claim_C3_amended.2.2.1 _ (by decide) (by decide),
   claim_C3_amended.2.2.2.1 _ ⟨0, by decide⟩ (by decide) (by decide) (by decide),
   claim_C3_amended.2.2.2.2.1 _ ⟨0, by decide⟩ samplePoint (by decide) (by decide) (by decide)
     (by decide),
   claim_C3_amended.2.2.2.2.2.1 _ (by decide) (by decide),
   claim_C3_amended.2.2.2.2.2.2.1 _ ⟨0, by decide⟩ (by decide) (by decide) (by decide),
   claim_C3_amended.2.2.2.2.2.2.2 _ samplePoint (by decide) (by decide) (by decide)⟩

/-- Counterexample to C4 as stated: a 72-byte buffer whose count field reads
1 (so the buffer is shorter than 72 + 1·96 = 168) does not yield
`InputTooShort`, because the nonce-point slice is parsed first and is
invalid here, so the result is `InvalidPoint`. -/
theorem claim_C4_counterexample :
    c4Input.length = 72 ∧ leValue ((c4Input.drop 64).take 8) = 1 ∧
      c4Input.length < 72 + leValue ((c4Input.drop 64).take 8) * 96 ∧
      SecretAggStepTwo.deserialize c4Input = .err .invalidPoint := by
  refine ⟨by decide, by decide, by decide, by decide⟩

/-- C4 amended: every buffer shorter than a type's minimum size is rejected
with `InputTooShort` carrying exactly the minimum size and the found
length, without panicking; for `SecretAggStepTwo`, once the scalar and
nonce-point prefixes parse and the count arithmetic does not overflow, a
buffer shorter than 72 + count·96 yields `InputTooShort` carrying exactly
that expected length and the found length. -/
theorem claim_C4_amended :
    (∀ b : List Nat, b.length < 96 →
      AggMessage1.deserialize b = .err (.inputTooShort 96 b.length)) ∧
    (∀ b : List Nat, b.length < 128 →
      AggMessage2.deserialize b = .err (.inputTooShort 128 b.length)) ∧
    (∀ b : List Nat, b.length < 64 →
      PartialSignature.deserialize b = .err (.inputTooShort 64 b.length)) ∧
    (∀ b : List Nat, b.length < 160 →
      SecretAggStepOne.deserialize b = .err (.inputTooShort 160 b.length)) ∧
    (∀ b : List Nat, b.length < 72 →
      SecretAggStepTwo.deserialize b = .err (.inputTooShort 72 b.length)) ∧
    (∀ (b : List Nat) (r : Scalar) (P : Point), 72 ≤ b.length →
      Scalar.fromBytes (b.take 32) = some r →
      Point.fromBytes ((b.drop 32).take 32) = some P →
      b.length < 72 + leValue ((b.drop 64).take 8) * 96 →
      72 + leValue ((b.drop 64).take 8) * 96 < 2 ^ 64 →
      SecretAggStepTwo.deserialize b
        = .err (.inputTooShort (72 + leValue ((b.drop 64).take 8) * 96) b.length)) := by
  refine ⟨?_, ?_, ?_, ?_, ?_, ?_⟩
  · intro b h
    unfold AggMessage1.deserialize
    rw [if_pos (by omega)]
  · intro b h
    unfold AggMessage2.deserialize
    rw [if_pos (by omega)]
  · intro b h
    unfold PartialSignature.deserialize
    rw [if_pos (by omega)]
  · intro b h
    unfold SecretAggStepOne.deserialize
    rw [if_pos (by omega)]
  · intro b h
    unfold SecretAggStepTwo.deserialize
    rw [if_pos (by omega)]
  · intro b r P hlen hsc hpt hshort hfit
    unfold SecretAggStepTwo.deserialize
    rw [if_neg (by omega), hsc, hpt]
    show step2Rest b r P = _
    unfold step2Rest
    have hmod : (32 + 32 + 8 + leValue ((b.drop 64).take 8) * (64 + 32)) % 2 ^ 64
        = 32 + 32 + 8 + leValue ((b.drop 64).take 8) * (64 + 32) :=
      Nat.mod_eq_of_lt (by omega)
    rw [hmod, if_pos (by omega)]

/-- Witness for C4 amended: the empty buffer against every type, and a
72-byte buffer with a valid scalar, a valid nonce point and a count of 2. -/
theorem claim_C4_amended_witness :
    AggMessage1.deserialize [] = .err (.inputTooShort 96 0) ∧
    AggMessage2.deserialize [] = .err (.inputTooShort 128 0) ∧
    PartialSignature.deserialize [] = .err (.inputTooShort 64 0) ∧
    SecretAggStepOne.deserialize [] = .err (.inputTooShort 160 0) ∧
    SecretAggStepTwo.deserialize [] = .err (.inputTooShort 72 0) ∧
    SecretAggStepTwo.deserialize
        (List.replicate 32 0 ++ (idPointBytes ++ (2 :: List.replicate 7 0)))
      = .err (.inputTooShort
          (72 + leValue (((List.replicate 32 0 ++ (idPointBytes ++ (2 :: List.replicate 7 0))).drop 64).take 8) * 96)
          (List.replicate 32 0 ++ (idPointBytes ++ (2 :: List.replicate 7 0))).length) :=
  ⟨claim_C4_amended.1 [] (by decide),
   claim_C4_amended.2.1 [] (by decide),
   claim_C4_amended.2.2.1 [] (by decide),
   claim_C4_amended.2.2.2.1 [] (by decide),
   claim_C4_amended.2.2.2.2.1 [] (by decide),
   claim_C4_amended.2.2.2.2.2 _ ⟨0, by decide⟩ samplePoint (by decide) (by decide)
     (by decide) (by decide) (by decide)⟩

/-- Big-endian byte value of a fixed-width encoding, `valBE` form. -/
theorem valBE256_beBytes (k n : Nat) (h : n < 256 ^ k) : valBE 256 (beBytes k n) = n :=
  beValue_beBytes k n h

/-- Counterexample to C10 as stated: a 129-byte buffer whose nonce-point
slice is invalid makes `AggMessage2::deserialize` return the `InvalidPoint`
error rather than panic, so not every buffer longer than 128 bytes panics. -/
theorem claim_C10_counterexample :
    128 < c10Input.length ∧ AggMessage2.deserialize c10Input = .err .invalidPoint := by
  refine ⟨by decide, by decide⟩

/-- C10 amended: deserialization accepts buffers longer than the declared
size rather than rejecting them, and the surplus bytes change the outcome:
any buffer longer than 128 bytes whose nonce-point slice parses makes
`AggMessage2::deserialize` panic (the sender is built from every byte after
offset 96), and appending a byte to a serialized `SecretAggStepOne` still
deserializes successfully, absorbing the byte into the blind factor. -/
theorem claim_C10_amended :
    (∀ (b : List Nat) (P : Point), 128 < b.length → Point.fromBytes (b.take 32) = some P →
      AggMessage2.deserialize b = .panicked) ∧
    (∀ (x : SecretAggStepOne) (bs : List Nat) (t : Nat), x.serializeBytes = some bs →
      SecretAggStepOne.deserialize (bs ++ [t])
        = .ok ⟨x.ephemeral, ⟨x.second_msg.R, x.second_msg.blind_factor * 256 + t⟩⟩) := by
  constructor
  · intro b P hlen hpt
    unfold AggMessage2.deserialize
    rw [if_neg (by omega), hpt]
    rw [Pubkey.new_none (by rw [List.length_drop]; omega)]
  · intro x bs t h
    obtain ⟨hlt, hbs⟩ := stepOne_serializeBytes_eq h
    obtain ⟨⟨r, Reph⟩, ⟨Rsm, blind⟩⟩ := x
    simp only at hlt hbs
    rw [hbs]
    have hlr : r.toBytes.length = 32 := beBytes_length _ _
    have hlR1 : Reph.toBytes.length = 32 := Point.toBytes_length Reph
    have hlR2 : Rsm.toBytes.length = 32 := Point.toBytes_length Rsm
    have hlb : (beBytes 64 blind).length = 64 := beBytes_length _ _
    rw [show (r.toBytes ++ (Reph.toBytes ++ (Rsm.toBytes ++ beBytes 64 blind))) ++ [t]
        = r.toBytes ++ (Reph.toBytes ++ (Rsm.toBytes ++ (beBytes 64 blind ++ [t])))
        from by simp]
    have e1 : (r.toBytes ++ (Reph.toBytes ++ (Rsm.toBytes ++ (beBytes 64 blind ++ [t])))).take 32
        = r.toBytes := List.take_left' hlr
    have e2 : ((r.toBytes ++ (Reph.toBytes ++ (Rsm.toBytes
          ++ (beBytes 64 blind ++ [t])))).drop 32).take 32 = Reph.toBytes := by
      rw [List.drop_left' hlr, List.take_left' hlR1]
    have e3 : ((r.toBytes ++ (Reph.toBytes ++ (Rsm.toBytes
          ++ (beBytes 64 blind ++ [t])))).drop 64).take 32 = Rsm.toBytes := by
      rw [show r.toBytes ++ (Reph.toBytes ++ (Rsm.toBytes ++ (beBytes 64 blind ++ [t])))
          = (r.toBytes ++ Reph.toBytes) ++ (Rsm.toBytes ++ (beBytes 64 blind ++ [t]))
          from by simp]
      rw [List.drop_left' (by rw [List.length_append, hlr, hlR1]), List.take_left' hlR2]
    have e4 : (r.toBytes ++ (Reph.toBytes ++ (Rsm.toBytes
          ++ (beBytes 64 blind ++ [t])))).drop (64 + 32) = beBytes 64 blind ++ [t] := by
      rw [show r.toBytes ++ (Reph.toBytes ++ (Rsm.toBytes ++ (beBytes 64 blind ++ [t])))
          = (r.toBytes ++ (Reph.toBytes ++ Rsm.toBytes)) ++ (beBytes 64 blind ++ [t])
          from by simp]
      exact List.drop_left' (by simp only [List.length_append, hlr, hlR1, hlR2])
    have hval : beValue (beBytes 64 blind ++ [t]) = blind * 256 + t := by
      show valBE 256 (beBytes 64 blind ++ [t]) = blind * 256 + t
      rw [valBE_append, valBE256_beBytes 64 blind hlt]
      simp [valBE]
    unfold SecretAggStepOne.deserialize
    rw [if_neg (by
      simp only [List.length_append, List.length_singleton, hlr, hlR1, hlR2, hlb]
      omega)]
    rw [e1, scalar_fromBytes_toBytes r]
    rw [e2, point_fromBytes_toBytes Reph]
    rw [e3, point_fromBytes_toBytes Rsm]
    rw [e4, hval]

/-- Witness for C10 amended: a 129-byte buffer with the identity point in
front panics, and appending the byte 1 to a concrete serialized secret
state shifts its blind factor. -/
theorem claim_C10_amended_witness :
    AggMessage2.deserialize (idPointBytes ++ List.replicate 97 0) = .panicked ∧
    SecretAggStepOne.deserialize (sampleStepOne.serializeBytes.getD [] ++ [1])
      = .ok ⟨sampleStepOne.ephemeral,
          ⟨sampleStepOne.second_msg.R, sampleStepOne.second_msg.blind_factor * 256 + 1⟩⟩ :=
  ⟨claim_C10_amended.1 _ samplePoint (by decide) (by decide),
   claim_C10_amended.2 sampleStepOne _ 1 (by decide)⟩
